import Mathlib

set_option maxHeartbeats 1000000

/-!
Verification of the declarative build engine of the bwv-zeug repository:
the incremental execution engine (`src/invoke/tasks_utils.py`) and the
mermaid-graph task generator (`src/invoke/tasks_mermaid_generator.py`,
`src/invoke/tasks_mermaid_utils.py`), shallowly embedded as executable
Lean definitions.
-/

namespace BWV

/-- Association-list lookup (first match), modelling Python dict access. -/
def lookupStr {α : Type} : List (String × α) → String → Option α
  | [], _ => none
  | (k, v) :: rest, key => if k = key then some v else lookupStr rest key

/-- Python dict assignment `m[k] = v`: overwrite in place when the key exists,
else append at the end (insertion-order semantics of Python dicts). -/
def insertD {α : Type} (m : List (String × α)) (k : String) (v : α) : List (String × α) :=
  if (lookupStr m k).isSome then
    m.map (fun kv => if kv.1 = k then (k, v) else kv)
  else m ++ [(k, v)]

/-- Python dict equality `==`: the two maps agree on every key of either map. -/
def dictEq (a b : List (String × String)) : Bool :=
  a.all (fun kv => lookupStr b kv.1 == some kv.2) &&
    b.all (fun kv => lookupStr a kv.1 == some kv.2)

/-- File system model: association list from path to file content. -/
abbrev FS := List (String × String)

/-- One task's cache entry: `{absolutePath: contentHashHex}`. -/
abbrev HashMapD := List (String × String)

/-- The persisted build cache: `{taskName: {path: hash}}`. -/
abbrev Cache := List (String × HashMapD)

/-- `path.unlink()`: remove a path from the file system. -/
def fsDelete (fs : FS) (p : String) : FS := fs.filter (fun kv => decide (kv.1 ≠ p))

/-- Write a file. -/
def fsSet (fs : FS) (p c : String) : FS := insertD fs p c

/-- `current_hashes = {str(p): hash_file(p) for p in source_paths if p.exists()}`
(from `sources_changed` in tasks_utils.py). `hashFn` abstracts sha256 over
file contents. -/
def currentHashes (hashFn : String → String) (fs : FS) (sources : List String) : HashMapD :=
  sources.foldl (fun m p =>
    match lookupStr fs p with
    | some content => insertD m p (hashFn content)
    | none => m) []

/-- `sources_changed` (tasks_utils.py lines 210-229): load the cache, compare the
freshly computed hashes with `cache.get(task_name, {})`; when they differ,
overwrite `cache[task_name]` and persist. Returns the decision and the cache
as persisted on disk afterwards. -/
def sources_changed (hashFn : String → String) (taskName : String) (sources : List String)
    (fs : FS) (cache : Cache) : Bool × Cache :=
  let cur := currentHashes hashFn fs sources
  let cached := (lookupStr cache taskName).getD []
  if dictEq cur cached then (false, cache)
  else (true, insertD cache taskName cur)

/-- `remove_outputs` (tasks_utils.py lines 235-256): unlink every target that
exists, collecting the deleted names. -/
def remove_outputs (fs : FS) (targets : List String) : FS × List String :=
  targets.foldl (fun (st : FS × List String) t =>
    if (lookupStr st.1 t).isSome then (fsDelete st.1 t, st.2 ++ [t]) else st) (fs, [])

/-- A shell command handed to `c.run`: its literal text plus its effect on the
file system (`none` models a non-zero exit raising in `c.run`). -/
structure Cmd where
  text : String
  exec : FS → Option FS

/-- A Python exception raised by a deferred callable: its `str(e)` message and
its optional `cmd` attribute (present on `CalledProcessError`). -/
structure PyExc where
  msg : String
  cmdAttr : Option (List String)

/-- A deferred callable (`python_func`): the script invocation it represents
and its effect, raising a `PyExc` on failure. -/
structure PyFunc where
  cmdRepr : List String
  exec : FS → Except PyExc FS

/-- A `gentle_exit`: the printed message and the process exit code. -/
structure ExitInfo where
  message : String
  code : Nat
deriving DecidableEq

/-- Observable events of one `smart_task` invocation, in order. -/
inductive Event where
  | cachePersist (taskName : String) (hashes : HashMapD)
  | removedTargets (deleted : List String)
  | rebuilding (taskName : String)
  | execCmd (text : String)
  | execPy
  | targetCheck (taskName : String) (missing : List String)
  | upToDate (taskName : String)
deriving DecidableEq

/-- A task as passed to `smart_task` by the generated tasks file. -/
structure TaskSpec where
  name : String
  sources : List String
  targets : List String
  commands : Option (List Cmd)
  pyf : Option PyFunc

/-- Python truthiness of the `commands` argument (an empty list is falsy). -/
def truthyCmds : Option (List Cmd) → Bool
  | some l => !l.isEmpty
  | none => false

/-- Python truthiness of the `python_func` argument. -/
def truthyPy : Option PyFunc → Bool
  | some _ => true
  | none => false

/-- `listStarts s pat`: does `s` start with `pat`? -/
def listStarts : List Char → List Char → Bool
  | _, [] => true
  | [], _ :: _ => false
  | a :: as, b :: bs => a == b && listStarts as bs

/-- Substring containment of `pat` in `s` (Python `pat in s`). -/
def strContainsChars (pat : List Char) : List Char → Bool
  | [] => listStarts [] pat
  | a :: as => listStarts (a :: as) pat || strContainsChars pat as

/-- Python `pat in s` on strings. -/
def strContains (s pat : String) : Bool := strContainsChars pat.data s.data

/-- Python `str.replace`: replace every non-overlapping occurrence of `pat`
left to right (the degenerate empty pattern, never used by the source, is
modelled as the identity). -/
def replChars (pat rep : List Char) : List Char → List Char
  | [] => []
  | a :: as =>
    if h : pat = [] then a :: as
    else
      if listStarts (a :: as) pat then rep ++ replChars pat rep ((a :: as).drop pat.length)
      else a :: replChars pat rep as
termination_by s => s.length
decreasing_by
  · simp only [List.length_drop, List.length_cons]
    exact Nat.sub_lt (Nat.succ_pos _) (List.length_pos.mpr h)
  · simp

/-- Python `str.replace` on strings. -/
def pyReplace (s pat rep : String) : String := ⟨replChars pat.data rep.data s.data⟩

/-- Python `str.startswith`. -/
def pyStartsWith (s pre : String) : Bool := listStarts s.data pre.data

/-- `s.startswith(c)` for a single character `c` (used for node-id kind tests). -/
def startsWithChar (s : String) (c : Char) : Bool :=
  match s.data with
  | [] => false
  | a :: _ => a == c

/-- The unbuffered-output rewrite applied to each command before running it:
`cmd.replace('python3 ', 'python3 -u ')` when it starts with `python3 `. -/
def rewriteCmd (text : String) : String :=
  if pyStartsWith text "python3 " then pyReplace text "python3 " "python3 -u " else text

/-- `gentle_exit` message for a failing shell command in `smart_task`. -/
def cmdFailMsg (name cmd : String) : String :=
  "Command failed in task '" ++ name ++ "': " ++ cmd

/-- Validation message when both `commands` and `python_func` are given. -/
def bothParamsMsg : String := "Internal error: Cannot specify both 'commands' and 'python_func'"

/-- Validation message when neither `commands` nor `python_func` is given. -/
def neitherParamsMsg : String := "Internal error: Must specify either 'commands' or 'python_func'"

/-- `gentle_exit` message for a failing Python script carrying the command. -/
def pyScriptFailMsg (name detail : String) : String :=
  "Python script failed in task '" ++ name ++ "': " ++ detail

/-- `gentle_exit` message for a generic exception from a deferred callable. -/
def taskFailMsg (name msg : String) : String := "Task '" ++ name ++ "' failed: " ++ msg

/-- `gentle_exit` message when declared targets were not produced. -/
def missingTargetsMsg (name : String) (missing : List String) : String :=
  "Task '" ++ name ++ "' completed but some output files were not created:\n" ++
    String.intercalate "\n" (missing.map (fun t => "   • " ++ t))

/-- Run the list of shell commands in order, aborting on the first failure
(smart_task lines 308-320). -/
def runCmds (taskName : String) : List Cmd → FS → List Event × Except ExitInfo FS
  | [], fs => ([], .ok fs)
  | c :: rest, fs =>
    match c.exec fs with
    | some fs' =>
      match runCmds taskName rest fs' with
      | (evs, r) => (Event.execCmd (rewriteCmd c.text) :: evs, r)
    | none =>
      ([Event.execCmd (rewriteCmd c.text)],
        .error ⟨cmdFailMsg taskName (rewriteCmd c.text), 1⟩)

/-- The `gentle_exit` chosen for an exception raised by a deferred callable
(smart_task lines 326-337): a subprocess-style message carrying the failing
command when recognizable, else the generic task-failed message. -/
def pyFailExit (taskName : String) (e : PyExc) : ExitInfo :=
  if strContains e.msg "returned non-zero exit status" then
    match e.cmdAttr with
    | some cmdList =>
      if cmdList.isEmpty then ⟨pyScriptFailMsg taskName e.msg, 1⟩
      else ⟨pyScriptFailMsg taskName (String.intercalate " " cmdList), 1⟩
    | none => ⟨pyScriptFailMsg taskName e.msg, 1⟩
  else ⟨taskFailMsg taskName e.msg, 1⟩

/-- Invoke the deferred callable, wrapping an exception into the appropriate
`gentle_exit` message (smart_task lines 322-337). -/
def runPy (taskName : String) (f : PyFunc) (fs : FS) : List Event × Except ExitInfo FS :=
  match f.exec fs with
  | .ok fs' => ([Event.execPy], .ok fs')
  | .error e => ([Event.execPy], .error (pyFailExit taskName e))

/-- Execute the task's work: its shell commands in order, or its deferred
callable (the `if commands: ... elif python_func:` dispatch of `smart_task`). -/
def execTask (t : TaskSpec) (fs1 : FS) : List Event × Except ExitInfo FS :=
  if truthyCmds t.commands then runCmds t.name (t.commands.getD []) fs1
  else match t.pyf with
    | some f => runPy t.name f fs1
    | none => ([], .ok fs1)

/-- The rebuild branch of `smart_task`: delete existing targets, execute the
command(s) or callable, then check that every declared target now exists. -/
def rebuildBody (t : TaskSpec) (fs : FS) : List Event × Except ExitInfo FS :=
  let rm := remove_outputs fs t.targets
  match execTask t rm.1 with
  | (evs, .error e) =>
    (Event.removedTargets rm.2 :: Event.rebuilding t.name :: evs, .error e)
  | (evs, .ok fs2) =>
    let missing := t.targets.filter (fun p => (lookupStr fs2 p).isNone)
    let evs' := Event.removedTargets rm.2 :: Event.rebuilding t.name ::
      (evs ++ [Event.targetCheck t.name missing])
    if missing.isEmpty then (evs', .ok fs2)
    else (evs', .error ⟨missingTargetsMsg t.name missing, 1⟩)

/-- `smart_task` (tasks_utils.py lines 281-355). Returns the ordered event
trace and either the `gentle_exit` that terminated the run or the resulting
file system, persisted cache, and whether the task was rebuilt. Note that
`force or sources_changed(...)` short-circuits: with `force` set,
`sources_changed` is never called and the cache is untouched. -/
def smart_task (hashFn : String → String) (t : TaskSpec) (force : Bool)
    (fs : FS) (cache : Cache) : List Event × Except ExitInfo (FS × Cache × Bool) :=
  if truthyCmds t.commands && truthyPy t.pyf then ([], .error ⟨bothParamsMsg, 1⟩)
  else if !truthyCmds t.commands && !truthyPy t.pyf then ([], .error ⟨neitherParamsMsg, 1⟩)
  else if force then
    let body := rebuildBody t fs
    (body.1, body.2.map (fun fs2 => (fs2, cache, true)))
  else
    match sources_changed hashFn t.name t.sources fs cache with
    | (false, cache') => ([Event.upToDate t.name], .ok (fs, cache', false))
    | (true, cache') =>
      let body := rebuildBody t fs
      (Event.cachePersist t.name (currentHashes hashFn fs t.sources) :: body.1,
        body.2.map (fun fs2 => (fs2, cache', true)))

/-- Run the generated tasks in order, halting the whole run at the first
`gentle_exit` (no subsequent task executes). The trace records, per executed
task, its name and event list. -/
def runBuild (hashFn : String → String) (force : Bool) :
    List TaskSpec → FS → Cache → List (String × List Event) × Except ExitInfo (FS × Cache)
  | [], fs, cache => ([], .ok (fs, cache))
  | t :: rest, fs, cache =>
    match smart_task hashFn t force fs cache with
    | (evs, .error e) => ([(t.name, evs)], .error e)
    | (evs, .ok (fs', cache', _)) =>
      let res := runBuild hashFn force rest fs' cache'
      ((t.name, evs) :: res.1, res.2)

/-- The engine's actual rebuild decision, `force or sources_changed(...)`
(note the short-circuit: with `force` set, `sources_changed` is not called). -/
def rebuildDecision (hashFn : String → String) (t : TaskSpec) (force : Bool)
    (fs : FS) (cache : Cache) : Bool :=
  force || (sources_changed hashFn t.name t.sources fs cache).1

/-- Does the event mark the start of a rebuild (the "Rebuilding" report)? -/
def isRebuildingEv : Event → Bool
  | .rebuilding _ => true
  | _ => false

/-- Did this task invocation rebuild? -/
def didRebuild (evs : List Event) : Bool := evs.any isRebuildingEv

/-- Is the event a cache persist? -/
def isCachePersistEv : Event → Bool
  | .cachePersist _ _ => true
  | _ => false

/-- Is the event a target-existence check? -/
def isTargetCheckEv : Event → Bool
  | .targetCheck _ _ => true
  | _ => false

/-- Every command effect of the task writes only its declared target paths. -/
def WritesOnlyTargets (t : TaskSpec) : Prop :=
  (∀ cs, t.commands = some cs → ∀ c ∈ cs, ∀ fs fs', c.exec fs = some fs' →
    ∀ p, p ∉ t.targets → lookupStr fs' p = lookupStr fs p) ∧
  (∀ f, t.pyf = some f → ∀ fs fs', f.exec fs = .ok fs' →
    ∀ p, p ∉ t.targets → lookupStr fs' p = lookupStr fs p)

/-- Modelled from the words of claim C2: rebuild iff `force` OR the task name
is absent from the persisted cache OR the current hash map differs from the
cached map. Spec-side definition, compared with the engine's decision. -/
def specRebuild (force : Bool) (cache : Cache) (name : String) (cur : HashMapD) : Bool :=
  force || (lookupStr cache name).isNone || !dictEq cur ((lookupStr cache name).getD [])

/-- A node as extracted by `MermaidDisplayListener.enterNodeDeclaration`
(tasks_mermaid_utils.py lines 60-115): id, primary label, secondary label. -/
structure MNode where
  id : String
  content : String
  descr : String
deriving DecidableEq

/-- The listener's derived `type` field: `node_id[0] if node_id else 'U'`
(tasks_mermaid_utils.py line 107). -/
def nodeTypeChar (nid : String) : Char := nid.data.headD 'U'

/-- `get_node_by_id`: first node with the given id. -/
def get_node_by_id (nodes : List MNode) (nid : String) : Option MNode :=
  nodes.find? (fun n => n.id == nid)

/-- `get_nodes_by_type`: all nodes of a given type character. -/
def get_nodes_by_type (nodes : List MNode) (t : Char) : List MNode :=
  nodes.filter (fun n => nodeTypeChar n.id == t)

/-- The closed node-kind enumeration of the specification's data model. -/
inductive NodeKind where
  | input
  | task
  | output
  | runnable
  | exportNode
  | unknown
deriving DecidableEq

/-- The specification's abstraction mapping the derived type character to the
closed kind enumeration (`I,T,O,R,E`; anything else is Unknown). -/
def classifyChar (c : Char) : NodeKind :=
  if c = 'I' then .input
  else if c = 'T' then .task
  else if c = 'O' then .output
  else if c = 'R' then .runnable
  else if c = 'E' then .exportNode
  else .unknown

/-- The kind of a declared node, as derived by the extractor from its id. -/
def nodeKind (nid : String) : NodeKind := classifyChar (nodeTypeChar nid)

/-- First-occurrence deduplication worker: skip elements already seen. -/
def pyDedupGo (seen : List String) : List String → List String
  | [] => []
  | a :: as => if seen.contains a then pyDedupGo seen as else a :: pyDedupGo (seen ++ [a]) as

/-- Python's `list(set(xs))` modelled as first-occurrence deduplication (the
set's iteration order is unspecified; the claims use the result as a set). -/
def pyDedup (l : List String) : List String := pyDedupGo [] l

/-- `trace_task_dependencies` (generator lines 69-100): direct `T → T`
dependencies plus dependencies through outputs (`O → T` walked backward
`O ← R ← T`), as content names. Python's `list(set(...))` is modelled as
first-occurrence deduplication; the claims use it only as a set. -/
def trace_task_dependencies (taskId : String) (edges : List (String × String))
    (nodes : List MNode) : List String :=
  let m1 := edges.foldl (fun acc e =>
    if e.2 == taskId && startsWithChar e.1 'T' then
      match get_node_by_id nodes e.1 with
      | some n => acc ++ [n.content]
      | none => acc
    else acc) []
  let m2 := edges.foldl (fun acc e =>
    if e.2 == taskId && startsWithChar e.1 'O' then
      acc ++ edges.foldl (fun acc2 e2 =>
        if e2.2 == e.1 && startsWithChar e2.1 'R' then
          acc2 ++ edges.foldl (fun acc3 e3 =>
            if e3.2 == e2.1 && startsWithChar e3.1 'T' then
              match get_node_by_id nodes e3.1 with
              | some n => acc3 ++ [n.content]
              | none => acc3
            else acc3) []
        else acc2) []
    else acc) []
  pyDedup (m1 ++ m2)

/-- `get_final_tasks_from_listener` (generator lines 41-67): for each Export
node, the first Runnable with an edge into it, then the first Task with an
edge into that Runnable, contributing its content; duplicates removed. -/
def get_final_tasks_from_listener (nodes : List MNode) (edges : List (String × String)) :
    List String :=
  let exportIds := (nodes.filter (fun n => nodeTypeChar n.id == 'E')).map (fun n => n.id)
  let raw := exportIds.foldl (fun acc eid =>
    match edges.find? (fun e => e.2 == eid && startsWithChar e.1 'R') with
    | none => acc
    | some re =>
      match edges.find? (fun e => e.2 == re.1 && startsWithChar e.1 'T') with
      | none => acc
      | some te =>
        match get_node_by_id nodes te.1 with
        | some n => acc ++ [n.content]
        | none => acc) []
  pyDedup raw

/-- The dependency list declared by the generated `all` aggregate
(`generate_all_task`, generator lines 454-473): `none` when there are no final
tasks (no `all` task is emitted), else the final-task list as `pre=[...]`. -/
def generate_all_task_pre (nodes : List MNode) (edges : List (String × String)) :
    Option (List String) :=
  let ft := get_final_tasks_from_listener nodes edges
  if ft.isEmpty then none else some ft

/-- Modelled from the words of claim C8: the content names of the tasks that
have a Task→Runnable edge to a Runnable that has a Runnable→Export edge to at
least one Export node, duplicates removed. Spec-side definition, compared
with `get_final_tasks_from_listener`. -/
def specFinalTasks (nodes : List MNode) (edges : List (String × String)) : List String :=
  pyDedup (((nodes.filter (fun n => nodeTypeChar n.id == 'T')).filter (fun t =>
    edges.any (fun e1 => e1.1 == t.id && startsWithChar e1.2 'R' &&
      edges.any (fun e2 => e2.1 == e1.2 &&
        nodes.any (fun n => n.id == e2.2 && nodeTypeChar n.id == 'E'))))).map
    (fun t => t.content))

/-- Decorate one input/output filename as a `Path(...)` source literal,
substituting the project-name placeholder (`get_task_sources`, lines 114-135). -/
def mkPathSource (filename : String) : String :=
  if strContains filename "BWV000" then
    "Path(f\"" ++ pyReplace filename "BWV000" "\x7bPROJECT_NAME\x7d" ++ "\")"
  else "Path(\"" ++ filename ++ "\")"

/-- The literal path sources of a task: every Input/Output node with an edge
into the task, in edge order. -/
def path_sources (taskId : String) (edges : List (String × String)) (nodes : List MNode) :
    List String :=
  edges.foldl (fun acc e =>
    if e.2 == taskId then
      if startsWithChar e.1 'I' || startsWithChar e.1 'O' then
        match get_node_by_id nodes e.1 with
        | some n => acc ++ [mkPathSource n.content]
        | none => acc
      else acc
    else acc) []

/-- `get_task_sources` (generator lines 102-153): build the complete sources
expression string. -/
def get_task_sources (taskId : String) (edges : List (String × String)) (nodes : List MNode) :
    String :=
  let ps := path_sources taskId edges nodes
  let hasLy := ps.any (fun s => strContains s ".ly")
  if !ps.isEmpty && hasLy then
    "[" ++ String.intercalate ", " ps ++ "] + shared_ly_sources()"
  else if !ps.isEmpty then "[" ++ String.intercalate ", " ps ++ "]"
  else if hasLy then "shared_ly_sources()"
  else "[]"

/-- Modelled from the words of claim C10: a literal path list (possibly
empty), with the shared-sources call appended exactly when at least one
literal source path contains ".ly". Spec-side definition, compared with
`get_task_sources`. -/
def specSourcesExpr (taskId : String) (edges : List (String × String)) (nodes : List MNode) :
    String :=
  let ps := path_sources taskId edges nodes
  let base := if ps.isEmpty then "[]" else "[" ++ String.intercalate ", " ps ++ "]"
  if ps.any (fun s => strContains s ".ly") then base ++ " + shared_ly_sources()" else base

/-- Python `str.lower()`. -/
def toLowerStr (s : String) : String := ⟨s.data.map Char.toLower⟩

/-- Python `str.split()` with no argument: split on whitespace runs,
discarding empties. -/
def pySplitWs (s : String) : List String :=
  (s.split Char.isWhitespace).filter (fun p => !p.isEmpty)

/-- The docker-command rewriting in `get_task_command` (generator lines
207-224): substitute the project-name and working-directory placeholders,
inject the lilypond-includes volume right after `docker run`, and expand the
INCLUDES marker. `includesAbs` abstracts the resolved absolute path of the
includes directory next to the generator. -/
def dockerCommand (includesAbs : String) (command : String) : String :=
  let c1 := pyReplace command "BWV000" "\x7bPROJECT_NAME\x7d"
  let c2 := pyReplace c1 "PWD" "\x7bPath.cwd()\x7d"
  let c3 := pyReplace c2 "docker run" ("docker run -v " ++ includesAbs ++ ":/work/includes")
  let c4 := pyReplace c3 "INCLUDES" "-I /work/includes"
  "f\"" ++ c4 ++ "\""

/-- The `bwv_script:` rewriting in `get_task_command` (generator lines
226-241): split into script name and templated argument list, wrapped as a
`run_bwv_script` deferred call. -/
def bwvScriptCommand (command : String) : String :=
  let parts := pySplitWs command
  let scriptName := pyReplace (parts.headD "") "bwv_script:" ""
  let args := (parts.drop 1).map (fun a => pyReplace a "BWV000" "\x7bPROJECT_NAME\x7d")
  if args.isEmpty then "run_bwv_script(\"" ++ scriptName ++ "\")"
  else
    "run_bwv_script(\"" ++ scriptName ++ "\", " ++
      String.intercalate ", " (args.map (fun a => "f\"" ++ a ++ "\"")) ++ ")"

/-- Resolve one runnable's content into a command string: a containerized
invocation, a deferred script call, or nothing (any other content falls
through and the edge scan continues). -/
def commandFromRunnable (includesAbs : String) (command : String) : Option String :=
  if strContains (toLowerStr command) "docker" && strContains (toLowerStr command) "run" then
    some (dockerCommand includesAbs command)
  else if pyStartsWith command "bwv_script:" then some (bwvScriptCommand command)
  else none

/-- `get_task_command` (generator lines 195-243): scan the edges for
`T → R`; on the first runnable whose node exists and whose content resolves,
return the command; otherwise keep scanning, and `none` at the end. -/
def get_task_command (includesAbs : String) (taskId : String) :
    List (String × String) → List MNode → Option String
  | [], _ => none
  | e :: rest, nodes =>
    if e.1 == taskId && startsWithChar e.2 'R' then
      match get_node_by_id nodes e.2 with
      | some rn =>
        match commandFromRunnable includesAbs rn.content with
        | some c => some c
        | none => get_task_command includesAbs taskId rest nodes
      | none => get_task_command includesAbs taskId rest nodes
    else get_task_command includesAbs taskId rest nodes

/-- Match the regex `"-o",\s*f?"([^"]+)"` at the head of `s`, returning the
capture group. -/
def matchOutputAt (s : List Char) : Option (List Char) :=
  if listStarts s ("\"-o\",".data) then
    let s1 := (s.drop 5).dropWhile Char.isWhitespace
    let afterQuote : Option (List Char) :=
      match s1 with
      | 'f' :: '"' :: rest => some rest
      | '"' :: rest => some rest
      | _ => none
    match afterQuote with
    | none => none
    | some rest =>
      let cap := rest.takeWhile (fun c => c != '"')
      if cap.isEmpty then none
      else
        match rest.drop cap.length with
        | '"' :: _ => some cap
        | _ => none
  else none

/-- `re.search` for the output-flag pattern: leftmost match wins. -/
def searchOutput : List Char → Option (List Char)
  | [] => none
  | a :: as =>
    match matchOutputAt (a :: as) with
    | some cap => some cap
    | none => searchOutput as

/-- `get_task_targets` (generator lines 155-193): outputs/exports reached from
the task's first `T → R` runnable; if none, a best-effort scan of a
`run_bwv_script` command for an explicit `"-o"` output file. -/
def get_task_targets (includesAbs : String) (taskId : String)
    (edges : List (String × String)) (nodes : List MNode) : List String :=
  let runnableId :=
    match edges.find? (fun e => e.1 == taskId && startsWithChar e.2 'R') with
    | some e => some e.2
    | none => none
  let targets :=
    match runnableId with
    | some rid =>
      edges.foldl (fun acc e =>
        if e.1 == rid && (startsWithChar e.2 'O' || startsWithChar e.2 'E') then
          match get_node_by_id nodes e.2 with
          | some tn =>
            acc ++ ["f\"" ++ pyReplace tn.content "BWV000" "\x7bPROJECT_NAME\x7d" ++ "\""]
          | none => acc
        else acc) []
    | none => []
  if targets.isEmpty then
    match get_task_command includesAbs taskId edges nodes with
    | some cmd =>
      if strContains cmd "run_bwv_script" && strContains cmd "\"-o\"" then
        match searchOutput cmd.data with
        | some cap => ["f\"" ++ String.mk cap ++ "\""]
        | none => []
      else []
    | none => []
  else targets

/-- The body emitted for one pipeline task: either a real `smart_task` call or
the "not implemented" stub (generator lines 603-626). -/
inductive GenBody where
  | smartCall (sources : String) (targets : List String)
      (commandsParam : String) (pyFuncParam : String)
  | stub
deriving DecidableEq

/-- The stub body text emitted for a task with no command. -/
def stubBodyText : String := "    # TODO: Add implementation - no command found\n    pass"

/-- The generated descriptor of one pipeline task. -/
structure GenTask where
  name : String
  dependsOn : List String
  sources : String
  targets : List String
  command : Option String
  body : GenBody
deriving DecidableEq

/-- One iteration of the task-generation loop of `generate_tasks_file`
(generator lines 587-638), producing the descriptor for one task node. -/
def gen_descriptor (includesAbs : String) (t : MNode) (edges : List (String × String))
    (nodes : List MNode) : GenTask :=
  let deps := trace_task_dependencies t.id edges nodes
  let sources := get_task_sources t.id edges nodes
  let targets := get_task_targets includesAbs t.id edges nodes
  let command := get_task_command includesAbs t.id edges nodes
  let body :=
    match command with
    | some c =>
      if pyStartsWith c "run_bwv_script" then
        GenBody.smartCall sources targets "None" ("lambda: " ++ c)
      else GenBody.smartCall sources targets ("[" ++ c ++ "]") "None"
    | none => GenBody.stub
  { name := t.content, dependsOn := deps, sources := sources, targets := targets,
    command := command, body := body }

/-- Is task `t` ready: does every dependency name already appear (as a content
name) in `sorted`? -/
def depsSatisfied (edges : List (String × String)) (allTasks : List MNode)
    (sorted : List MNode) (t : MNode) : Bool :=
  (trace_task_dependencies t.id edges allTasks).all
    (fun d => sorted.any (fun s => s.content == d))

/-- The while-loop of `sort_tasks_by_dependencies` (generator lines 553-581):
emit every ready task (declaration order preserved); when none is ready,
force-emit the first remaining task with a warning. Also returns the contents
of force-emitted tasks (the logged circular-dependency warnings). -/
def sortGo (edges : List (String × String)) (allTasks : List MNode) :
    List MNode → List MNode → List MNode × List String
  | sorted, [] => (sorted, [])
  | sorted, r :: rs =>
    if h : ((r :: rs).filter (depsSatisfied edges allTasks sorted)).isEmpty then
      let res := sortGo edges allTasks (sorted ++ [r]) rs
      (res.1, r.content :: res.2)
    else
      sortGo edges allTasks (sorted ++ (r :: rs).filter (depsSatisfied edges allTasks sorted))
        ((r :: rs).filter (fun t => !depsSatisfied edges allTasks sorted t))
termination_by _ remaining => remaining.length
decreasing_by
  · simp
  · have hlen := List.length_eq_length_filter_add (l := r :: rs)
      (depsSatisfied edges allTasks sorted)
    have hpos : 0 < ((r :: rs).filter (depsSatisfied edges allTasks sorted)).length := by
      cases hne : (r :: rs).filter (depsSatisfied edges allTasks sorted) with
      | nil => rw [hne] at h; simp at h
      | cons x xs => simp
    omega

/-- `sort_tasks_by_dependencies` (generator lines 553-584). -/
def sort_tasks_by_dependencies (taskNodes : List MNode) (edges : List (String × String)) :
    List MNode × List String :=
  sortGo edges taskNodes [] taskNodes

/-- Every dependency name of every element of the list appears as the content
of an earlier element. -/
def DepsBefore (deps : MNode → List String) (l : List MNode) : Prop :=
  ∀ pre t post, l = pre ++ t :: post → ∀ d ∈ deps t, ∃ u ∈ pre, u.content = d

/-! ## Concrete scenario instances -/

/-- A command that writes the file `o`. -/
def c1Cmd : Cmd := ⟨"touch o", fun fs => some (fsSet fs "o" "out")⟩

/-- A task with source `s` and target `o`. -/
def c1Task : TaskSpec := ⟨"T", ["s"], ["o"], some [c1Cmd], none⟩

/-- A file system where `s` holds fresh content `c2`. -/
def c1Fs : FS := [("s", "c2")]

/-- A cache holding a stale hash for task `T`. -/
def c1Cache : Cache := [("T", [("s", "c")])]

/-- A command that writes the file `o`. -/
def c2Cmd : Cmd := ⟨"touch o", fun fs => some (fsSet fs "o" "out")⟩

/-- A task whose single source `s` does not exist in the empty file system. -/
def c2Task : TaskSpec := ⟨"T", ["s"], ["o"], some [c2Cmd], none⟩

/-- A deferred callable raising a generic exception (message `boom`, no `cmd`
attribute), representing `run_bwv_script("extract.py", ...)`. -/
def c5Py : PyFunc := ⟨["python3", "extract.py", "-i", "x.svg"], fun _ => .error ⟨"boom", none⟩⟩

/-- A task whose deferred callable raises. -/
def c5Task : TaskSpec := ⟨"extract", ["s"], ["ties.csv"], none, some c5Py⟩

/-- A task whose shell command exits non-zero. -/
def c5CmdTask : TaskSpec := ⟨"build", ["s"], ["o"], some [⟨"lilypond x.ly", fun _ => none⟩], none⟩

/-- A task scheduled after the failing one; its command would write `later`. -/
def c5Next : TaskSpec :=
  ⟨"later", ["s"], ["later"], some [⟨"touch later", fun fs => some (fsSet fs "later" "x")⟩], none⟩

/-- A task whose command succeeds but produces none of its declared targets. -/
def c6Task : TaskSpec := ⟨"compile", ["s"], ["a.pdf", "b.pdf"], some [⟨"lilypond a.ly", fun fs => some fs⟩], none⟩

/-- First pipeline task: reads `a.src`, writes `a.out`. -/
def c4TaskA : TaskSpec :=
  ⟨"A", ["a.src"], ["a.out"], some [⟨"gen a.out", fun fs => some (fsSet fs "a.out" "A-out")⟩], none⟩

/-- Second pipeline task: reads `a.out`, writes `b.out`. -/
def c4TaskB : TaskSpec :=
  ⟨"B", ["a.out"], ["b.out"], some [⟨"gen b.out", fun fs => some (fsSet fs "b.out" "B-out")⟩], none⟩

/-- Initial file system for the round-trip scenario. -/
def c4Fs : FS := [("a.src", "src-content")]

/-- Task nodes of the C3 witness graph, dependent task declared first. -/
def c3Nodes : List MNode := [⟨"T2", "b", ""⟩, ⟨"T1", "a", ""⟩]

/-- Edges of the C3 witness graph: `T1 → T2`. -/
def c3Edges : List (String × String) := [("T1", "T2")]

/-- Nodes of the C8 counterexample: two runnables both feeding export `E1`. -/
def c8Nodes : List MNode :=
  [⟨"T1", "t1", ""⟩, ⟨"T2", "t2", ""⟩, ⟨"R1", "docker run x", ""⟩,
   ⟨"R2", "docker run y", ""⟩, ⟨"E1", "out.pdf", ""⟩]

/-- Edges of the C8 counterexample: `R1→E1`, `R2→E1`, `T2→R2`, `T1→R1`. -/
def c8Edges : List (String × String) := [("R1", "E1"), ("R2", "E1"), ("T2", "R2"), ("T1", "R1")]

/-- Scenario C nodes: `T1 → R1 → E1`. -/
def scCNodes : List MNode := [⟨"T1", "T1", ""⟩, ⟨"R1", "docker run x", ""⟩, ⟨"E1", "out.pdf", ""⟩]

/-- Scenario C edges. -/
def scCEdges : List (String × String) := [("T1", "R1"), ("R1", "E1")]

/-! ## Helper lemmas -/

theorem string_ne_of_headD {s t : String} {c1 c2 : Char} (h1 : s.data.headD ' ' = c1)
    (h2 : t.data.headD ' ' = c2) (hne : c1 ≠ c2) : s ≠ t := by
  intro he
  rw [he, h2] at h1
  exact hne h1.symm

theorem headD_append_left (a b : String) {c : Char} (h : a.data.headD ' ' = c)
    (hc : c ≠ ' ') : (a ++ b).data.headD ' ' = c := by
  rw [String.data_append]
  cases hd : a.data with
  | nil =>
    rw [hd] at h
    exact absurd (by simpa using h.symm) hc
  | cons x xs =>
    rw [hd] at h
    simpa using h

/-! ## C7 -/

/-- C7: for every parsed node declaration, the node's kind is derived
deterministically from the first character of its id: `I` gives Input, `T`
Task, `O` Output, `R` Runnable, `E` Export, and any id whose first character
is not one of `I,T,O,R,E` yields the kind Unknown. -/
theorem c7_node_kind_from_first_char (c : Char) (rest : List Char) :
    nodeKind ⟨c :: rest⟩ = classifyChar c ∧
    (c = 'I' → nodeKind ⟨c :: rest⟩ = NodeKind.input) ∧
    (c = 'T' → nodeKind ⟨c :: rest⟩ = NodeKind.task) ∧
    (c = 'O' → nodeKind ⟨c :: rest⟩ = NodeKind.output) ∧
    (c = 'R' → nodeKind ⟨c :: rest⟩ = NodeKind.runnable) ∧
    (c = 'E' → nodeKind ⟨c :: rest⟩ = NodeKind.exportNode) ∧
    (c ≠ 'I' → c ≠ 'T' → c ≠ 'O' → c ≠ 'R' → c ≠ 'E' →
      nodeKind ⟨c :: rest⟩ = NodeKind.unknown) := by
  refine ⟨rfl, ?_, ?_, ?_, ?_, ?_, ?_⟩ <;>
    · intros
      simp [nodeKind, nodeTypeChar, classifyChar, *]

/-- Witness for C7 at concrete ids `X1` (unknown first character) and `T9`. -/
theorem c7_node_kind_from_first_char_witness :
    nodeKind ⟨'X' :: ['1']⟩ = NodeKind.unknown ∧ nodeKind ⟨'T' :: ['9']⟩ = NodeKind.task := by
  constructor
  · exact (c7_node_kind_from_first_char 'X' ['1']).2.2.2.2.2.2
      (by decide) (by decide) (by decide) (by decide) (by decide)
  · exact (c7_node_kind_from_first_char 'T' ['9']).2.2.1 rfl

/-! ## C10 -/

/-- C10: the sources expression is never the shared-sources call alone: it is
always a literal path list (possibly empty), optionally followed by the
shared-sources call, and the call is appended iff at least one literal source
path contains the substring `.ly`. -/
theorem c10_sources_expression (taskId : String) (edges : List (String × String))
    (nodes : List MNode) :
    get_task_sources taskId edges nodes = specSourcesExpr taskId edges nodes ∧
    get_task_sources taskId edges nodes ≠ "shared_ly_sources()" := by
  have hform : get_task_sources taskId edges nodes = specSourcesExpr taskId edges nodes := by
    unfold get_task_sources specSourcesExpr
    cases hps : path_sources taskId edges nodes with
    | nil => simp
    | cons x xs =>
      by_cases hly : (x :: xs).any (fun s => strContains s ".ly")
      · simp only [List.isEmpty_cons, Bool.not_false, Bool.true_and, hly, if_true,
          Bool.false_eq_true, if_false]
        rw [String.append_assoc, String.append_assoc]
        rfl
      · simp [hly]
  refine ⟨hform, ?_⟩
  rw [hform]
  unfold specSourcesExpr
  cases hps : path_sources taskId edges nodes with
  | nil => simp
  | cons x xs =>
    have hbase : ("[" ++ String.intercalate ", " (x :: xs) ++ "]").data.headD ' ' = '[' := by
      exact headD_append_left _ _ (headD_append_left "[" _ rfl (by decide)) (by decide)
    by_cases hly : (x :: xs).any (fun s => strContains s ".ly")
    · simp only [List.isEmpty_cons, Bool.false_eq_true, if_false, hly, if_true]
      exact string_ne_of_headD (headD_append_left _ _ hbase (by decide)) rfl (by decide)
    · simp only [List.isEmpty_cons, Bool.false_eq_true, if_false, hly]
      exact string_ne_of_headD hbase rfl (by decide)

/-! ## C9 -/

theorem get_task_command_none (includesAbs taskId : String) (edges : List (String × String))
    (nodes : List MNode)
    (h : ∀ e ∈ edges, ¬(e.1 = taskId ∧ startsWithChar e.2 'R' = true)) :
    get_task_command includesAbs taskId edges nodes = none := by
  induction edges with
  | nil => rfl
  | cons e rest ih =>
    have he := h e (by simp)
    have hb : (e.1 == taskId && startsWithChar e.2 'R') = false := by
      rw [Bool.and_eq_false_iff]
      by_cases h1 : e.1 = taskId
      · right
        by_contra h2
        exact he ⟨h1, by simpa using h2⟩
      · left
        simpa using h1
    unfold get_task_command
    simp only [hb, Bool.false_eq_true, if_false]
    exact ih (fun e' he' => h e' (List.mem_cons_of_mem _ he'))

/-- C9: for every Task node with zero outgoing Task→Runnable edges, generation
does not abort: the emitted descriptor is a stub whose targets list is empty
and whose command is absent, with the "not implemented" no-op body. -/
theorem c9_stub_task (includesAbs : String) (t : MNode) (edges : List (String × String))
    (nodes : List MNode)
    (h : ∀ e ∈ edges, ¬(e.1 = t.id ∧ startsWithChar e.2 'R' = true)) :
    (gen_descriptor includesAbs t edges nodes).targets = [] ∧
    (gen_descriptor includesAbs t edges nodes).command = none ∧
    (gen_descriptor includesAbs t edges nodes).body = GenBody.stub := by
  have hcmd := get_task_command_none includesAbs t.id edges nodes h
  have hfind : edges.find? (fun e => e.1 == t.id && startsWithChar e.2 'R') = none := by
    rw [List.find?_eq_none]
    intro e he
    have := h e he
    rw [Bool.and_eq_true]
    intro ⟨h1, h2⟩
    exact this ⟨by simpa using h1, h2⟩
  have htgt : get_task_targets includesAbs t.id edges nodes = [] := by
    unfold get_task_targets
    rw [hfind, hcmd]
    simp
  unfold gen_descriptor
  rw [hcmd, htgt]
  exact ⟨rfl, rfl, rfl⟩

/-! ## Engine event lemmas -/

theorem runPy_fst (n : String) (f : PyFunc) (fs : FS) : (runPy n f fs).1 = [Event.execPy] := by
  unfold runPy
  cases f.exec fs <;> rfl

theorem runCmds_events (n : String) :
    ∀ (cs : List Cmd) (fs : FS), ∀ e ∈ (runCmds n cs fs).1, ∃ txt, e = Event.execCmd txt := by
  intro cs
  induction cs with
  | nil =>
    intro fs e he
    simp [runCmds] at he
  | cons c rest ih =>
    intro fs e he
    unfold runCmds at he
    cases hx : c.exec fs with
    | some fs' =>
      rw [hx] at he
      simp only [List.mem_cons] at he
      rcases he with he | he
      · exact ⟨_, he⟩
      · exact ih fs' e he
    | none =>
      rw [hx] at he
      simp only [List.mem_singleton] at he
      exact ⟨_, he⟩

theorem execTask_events (t : TaskSpec) (fs1 : FS) :
    ∀ e ∈ (execTask t fs1).1,
      isCachePersistEv e = false ∧ isTargetCheckEv e = false ∧ isRebuildingEv e = false := by
  intro e he
  unfold execTask at he
  split at he
  · rcases runCmds_events t.name _ _ e he with ⟨txt, rfl⟩
    exact ⟨rfl, rfl, rfl⟩
  · split at he
    · rw [runPy_fst] at he
      simp only [List.mem_singleton] at he
      subst he
      exact ⟨rfl, rfl, rfl⟩
    · simp at he

theorem rebuildBody_no_cachePersist (t : TaskSpec) (fs : FS) :
    ∀ e ∈ (rebuildBody t fs).1, isCachePersistEv e = false := by
  intro e he
  simp only [rebuildBody] at he
  cases hx : execTask t (remove_outputs fs t.targets).1 with
  | mk evs r =>
    rw [hx] at he
    have hev : ∀ e' ∈ evs, isCachePersistEv e' = false := by
      intro e' he'
      exact (execTask_events t _ e' (by rw [hx]; exact he')).1
    cases r with
    | error err =>
      simp only [List.mem_cons] at he
      rcases he with rfl | rfl | he
      · rfl
      · rfl
      · exact hev e he
    | ok fs2 =>
      dsimp only at he
      split at he <;>
      · simp only [List.mem_cons, List.mem_append, List.mem_singleton, List.not_mem_nil,
          or_false] at he
        rcases he with rfl | rfl | he | rfl
        · rfl
        · rfl
        · exact hev e he
        · rfl

theorem didRebuild_rebuildBody (t : TaskSpec) (fs : FS) :
    didRebuild (rebuildBody t fs).1 = true := by
  simp only [rebuildBody]
  cases hx : execTask t (remove_outputs fs t.targets).1 with
  | mk evs r =>
    cases r with
    | error err => simp [didRebuild, isRebuildingEv]
    | ok fs2 =>
      dsimp only
      split <;> simp [didRebuild, isRebuildingEv]

theorem didRebuild_smart_task (hashFn : String → String) (t : TaskSpec) (force : Bool)
    (fs : FS) (cache : Cache) (hv : truthyCmds t.commands ≠ truthyPy t.pyf) :
    didRebuild (smart_task hashFn t force fs cache).1 =
      rebuildDecision hashFn t force fs cache := by
  have hv1 : (truthyCmds t.commands && truthyPy t.pyf) = false := by
    cases hc : truthyCmds t.commands <;> cases hp : truthyPy t.pyf <;>
      first | rfl | (exfalso; rw [hc, hp] at hv; exact hv rfl)
  have hv2 : (!truthyCmds t.commands && !truthyPy t.pyf) = false := by
    cases hc : truthyCmds t.commands <;> cases hp : truthyPy t.pyf <;>
      first | rfl | (exfalso; rw [hc, hp] at hv; exact hv rfl)
  unfold smart_task rebuildDecision
  rw [hv1, hv2]
  simp only [Bool.false_eq_true, if_false]
  cases force with
  | true => simpa using didRebuild_rebuildBody t fs
  | false =>
    cases hs : sources_changed hashFn t.name t.sources fs cache with
    | mk b cache' =>
      cases b with
      | false => simp [didRebuild, isRebuildingEv]
      | true =>
        simp only [Bool.false_or]
        have := didRebuild_rebuildBody t fs
        simp [didRebuild, isRebuildingEv, isCachePersistEv] at this ⊢
        exact this

theorem sources_changed_fst (hashFn : String → String) (name : String) (sources : List String)
    (fs : FS) (cache : Cache) :
    (sources_changed hashFn name sources fs cache).1 =
      !dictEq (currentHashes hashFn fs sources) ((lookupStr cache name).getD []) := by
  unfold sources_changed
  cases h : dictEq (currentHashes hashFn fs sources) ((lookupStr cache name).getD []) <;> simp [h]

/-! ## C2 -/

/-- C2 counterexample: a task whose name is absent from the cache but none of
whose sources exist is NOT rebuilt — the engine compares against
`cache.get(task_name, {})`, treating absence as the empty hash map, so it
reports "up to date" where the claim requires a rebuild. -/
theorem c2_counterexample :
    specRebuild false [] "T" (currentHashes (fun s => s) [] ["s"]) = true ∧
    lookupStr ([] : Cache) "T" = none ∧
    (smart_task (fun s => s) c2Task false [] []).2 = .ok ([], [], false) ∧
    didRebuild (smart_task (fun s => s) c2Task false [] []).1 = false := by
  exact ⟨rfl, rfl, rfl, rfl⟩

/-- C2 (amended): the engine rebuilds iff the force flag is set OR the
computed `currentHashes` differ from `cache.get(taskName, {})` — absence from
the cache is compared as the empty map, so an absent task is rebuilt exactly
when at least one of its source files exists. -/
theorem c2_rebuild_decision (hashFn : String → String) (t : TaskSpec) (force : Bool)
    (fs : FS) (cache : Cache) (hv : truthyCmds t.commands ≠ truthyPy t.pyf) :
    didRebuild (smart_task hashFn t force fs cache).1 =
      (force ||
        !dictEq (currentHashes hashFn fs t.sources) ((lookupStr cache t.name).getD [])) := by
  rw [didRebuild_smart_task hashFn t force fs cache hv]
  unfold rebuildDecision
  rw [sources_changed_fst]

/-- Witness for C2 (amended) at a concrete rebuild: fresh content for `s`,
stale cache entry. -/
theorem c2_rebuild_decision_witness :
    didRebuild (smart_task (fun s => s) c2Task false [("s", "c2")] [("T", [("s", "c")])]).1 =
      (false ||
        !dictEq (currentHashes (fun s => s) [("s", "c2")] ["s"])
          ((lookupStr ([("T", [("s", "c")])] : Cache) "T").getD [])) :=
  c2_rebuild_decision (fun s => s) c2Task false [("s", "c2")] [("T", [("s", "c")])] (by decide)

/-! ## C1 -/

/-- C1 counterexample: a rebuild decided by the force flag does NOT overwrite
or persist the cache entry — `force or sources_changed(...)` short-circuits,
so `sources_changed` never runs: the task rebuilds (the command executes) yet
the persisted cache still carries the stale hashes, not `currentHashes`. -/
theorem c1_counterexample :
    (smart_task (fun s => s) c1Task true c1Fs c1Cache).2 =
      .ok ([("s", "c2"), ("o", "out")], c1Cache, true) ∧
    didRebuild (smart_task (fun s => s) c1Task true c1Fs c1Cache).1 = true ∧
    (smart_task (fun s => s) c1Task true c1Fs c1Cache).1.all
      (fun e => !isCachePersistEv e) = true ∧
    lookupStr c1Cache "T" ≠ some (currentHashes (fun s => s) c1Fs ["s"]) := by
  refine ⟨rfl, rfl, rfl, by decide⟩

/-- C1 (amended): when the rebuild is decided by the hash comparison (force
unset and `sources_changed` true — which covers a missing cache entry with at
least one existing source and changed hashes), the engine's first observable
event overwrites `cache[taskName]` with `currentHashes` and persists the whole
cache, before any command or callable executes; on success the persisted cache
is exactly `insertD cache taskName currentHashes`. When the rebuild is decided
solely by the force flag, `sources_changed` is short-circuited and no cache
write happens at all. -/
theorem c1_cache_persisted_before_run (hashFn : String → String) (t : TaskSpec)
    (fs : FS) (cache : Cache) (hv : truthyCmds t.commands ≠ truthyPy t.pyf)
    (hchanged : dictEq (currentHashes hashFn fs t.sources)
      ((lookupStr cache t.name).getD []) = false) :
    (smart_task hashFn t false fs cache).1.head? =
      some (Event.cachePersist t.name (currentHashes hashFn fs t.sources)) ∧
    (∀ fs' c' b, (smart_task hashFn t false fs cache).2 = .ok (fs', c', b) →
      c' = insertD cache t.name (currentHashes hashFn fs t.sources) ∧ b = true) ∧
    (∀ e ∈ (smart_task hashFn t true fs cache).1, isCachePersistEv e = false) ∧
    (∀ fs' c' b, (smart_task hashFn t true fs cache).2 = .ok (fs', c', b) → c' = cache) := by
  have hsc : sources_changed hashFn t.name t.sources fs cache =
      (true, insertD cache t.name (currentHashes hashFn fs t.sources)) := by
    simp only [sources_changed, hchanged, Bool.false_eq_true, if_false]
  have hv1 : (truthyCmds t.commands && truthyPy t.pyf) = false := by
    cases hc : truthyCmds t.commands <;> cases hp : truthyPy t.pyf <;>
      first | rfl | (exfalso; rw [hc, hp] at hv; exact hv rfl)
  have hv2 : (!truthyCmds t.commands && !truthyPy t.pyf) = false := by
    cases hc : truthyCmds t.commands <;> cases hp : truthyPy t.pyf <;>
      first | rfl | (exfalso; rw [hc, hp] at hv; exact hv rfl)
  refine ⟨?_, ?_, ?_, ?_⟩
  · simp only [smart_task, hv1, hv2, Bool.false_eq_true, if_false, hsc]
    rfl
  · intro fs' c' b heq
    simp only [smart_task, hv1, hv2, Bool.false_eq_true, if_false, hsc] at heq
    cases hb : (rebuildBody t fs).2 with
    | error err => rw [hb] at heq; simp [Except.map] at heq
    | ok fs2 =>
      rw [hb] at heq
      simp only [Except.map, Except.ok.injEq, Prod.mk.injEq] at heq
      exact ⟨heq.2.1.symm, heq.2.2.symm⟩
  · intro e he
    simp only [smart_task, hv1, hv2, Bool.false_eq_true, if_false, if_true] at he
    exact rebuildBody_no_cachePersist t fs e he
  · intro fs' c' b heq
    simp only [smart_task, hv1, hv2, Bool.false_eq_true, if_false, if_true] at heq
    cases hb : (rebuildBody t fs).2 with
    | error err => rw [hb] at heq; simp [Except.map] at heq
    | ok fs2 =>
      rw [hb] at heq
      simp only [Except.map, Except.ok.injEq, Prod.mk.injEq] at heq
      exact heq.2.1.symm

/-- Witness for C1 (amended) at a concrete changed-hash rebuild. -/
theorem c1_cache_persisted_before_run_witness :
    (smart_task (fun s => s) c1Task false c1Fs c1Cache).1.head? =
      some (Event.cachePersist "T" (currentHashes (fun s => s) c1Fs ["s"])) ∧
    dictEq (currentHashes (fun s => s) c1Fs c1Task.sources)
      ((lookupStr c1Cache c1Task.name).getD []) = false := by
  constructor
  · exact (c1_cache_persisted_before_run (fun s => s) c1Task c1Fs c1Cache (by decide)
      (by decide)).1
  · decide

/-- Witness for C9: a task whose only edge goes to an Output, not a Runnable. -/
theorem c9_stub_task_witness :
    (∀ e ∈ [(("T1" : String), ("O1" : String))], ¬(e.1 = "T1" ∧ startsWithChar e.2 'R' = true)) ∧
    (gen_descriptor "/inc" ⟨"T1", "compile", ""⟩ [("T1", "O1")]
      [⟨"T1", "compile", ""⟩, ⟨"O1", "a.pdf", ""⟩]).body = GenBody.stub := by
  refine ⟨by decide, ?_⟩
  exact (c9_stub_task "/inc" ⟨"T1", "compile", ""⟩ [("T1", "O1")]
    [⟨"T1", "compile", ""⟩, ⟨"O1", "a.pdf", ""⟩] (by decide)).2.2

/-! ## Substring lemmas -/

theorem listStarts_nil (s : List Char) : listStarts s [] = true := by
  cases s <;> rfl

theorem listStarts_append_self (pat : List Char) : ∀ rest, listStarts (pat ++ rest) pat = true := by
  induction pat with
  | nil => intro rest; exact listStarts_nil rest
  | cons b bs ih =>
    intro rest
    simp only [List.cons_append, listStarts, beq_self_eq_true, Bool.true_and]
    exact ih rest

theorem strContainsChars_of_starts {pat s : List Char} (h : listStarts s pat = true) :
    strContainsChars pat s = true := by
  cases s with
  | nil => exact h
  | cons a as =>
    unfold strContainsChars
    rw [h]
    rfl

theorem strContainsChars_append (pat : List Char) :
    ∀ pre post, strContainsChars pat (pre ++ (pat ++ post)) = true := by
  intro pre
  induction pre with
  | nil =>
    intro post
    exact strContainsChars_of_starts (listStarts_append_self pat post)
  | cons a as ih =>
    intro post
    show strContainsChars pat (a :: (as ++ (pat ++ post))) = true
    unfold strContainsChars
    rw [ih post]
    simp

theorem strContains_sandwich (a n b : String) : strContains (a ++ n ++ b) n = true := by
  unfold strContains
  have hd : (a ++ n ++ b).data = a.data ++ (n.data ++ b.data) := by
    rw [String.data_append, String.data_append, List.append_assoc]
  rw [hd]
  exact strContainsChars_append n.data a.data b.data

theorem strContains_suffix_self (a n : String) : strContains (a ++ n) n = true := by
  unfold strContains
  have hd : (a ++ n).data = a.data ++ (n.data ++ []) := by
    rw [String.data_append, List.append_nil]
  rw [hd]
  exact strContainsChars_append n.data a.data []

/-! ## Engine failure-propagation lemmas -/

theorem validBools {t : TaskSpec} (hv : truthyCmds t.commands ≠ truthyPy t.pyf) :
    (truthyCmds t.commands && truthyPy t.pyf) = false ∧
    (!truthyCmds t.commands && !truthyPy t.pyf) = false := by
  constructor <;>
    (cases hc : truthyCmds t.commands <;> cases hp : truthyPy t.pyf <;>
      first | rfl | (exfalso; rw [hc, hp] at hv; exact hv rfl))

theorem execTask_cmds {t : TaskSpec} (fs1 : FS) (ht : truthyCmds t.commands = true) :
    execTask t fs1 = runCmds t.name (t.commands.getD []) fs1 := by
  unfold execTask
  rw [ht]
  rfl

theorem rebuildBody_exec_error {t : TaskSpec} {fs : FS} {evs : List Event} {e : ExitInfo}
    (hexec : execTask t (remove_outputs fs t.targets).1 = (evs, .error e)) :
    rebuildBody t fs =
      (Event.removedTargets (remove_outputs fs t.targets).2 ::
        Event.rebuilding t.name :: evs, .error e) := by
  simp only [rebuildBody]
  rw [hexec]

theorem rebuildBody_missing {t : TaskSpec} {fs : FS} {evs : List Event} {fs2 : FS}
    (hexec : execTask t (remove_outputs fs t.targets).1 = (evs, .ok fs2))
    (hmiss : (t.targets.filter (fun p => (lookupStr fs2 p).isNone)).isEmpty = false) :
    rebuildBody t fs =
      (Event.removedTargets (remove_outputs fs t.targets).2 :: Event.rebuilding t.name ::
        (evs ++ [Event.targetCheck t.name
          (t.targets.filter (fun p => (lookupStr fs2 p).isNone))]),
        .error ⟨missingTargetsMsg t.name
          (t.targets.filter (fun p => (lookupStr fs2 p).isNone)), 1⟩) := by
  simp only [rebuildBody]
  rw [hexec]
  simp only [hmiss, Bool.false_eq_true, if_false]

theorem smart_task_rebuild (hashFn : String → String) (t : TaskSpec) (force : Bool)
    (fs : FS) (cache : Cache) (hv : truthyCmds t.commands ≠ truthyPy t.pyf)
    (hdecide : rebuildDecision hashFn t force fs cache = true) :
    ((smart_task hashFn t force fs cache).1 = (rebuildBody t fs).1 ∨
      (smart_task hashFn t force fs cache).1 =
        Event.cachePersist t.name (currentHashes hashFn fs t.sources) :: (rebuildBody t fs).1) ∧
    (smart_task hashFn t force fs cache).2 =
      (rebuildBody t fs).2.map
        (fun fs2 => (fs2, (sources_changed hashFn t.name t.sources fs cache).2,
          true)) ∨
    (force = true ∧
      (smart_task hashFn t force fs cache).1 = (rebuildBody t fs).1 ∧
      (smart_task hashFn t force fs cache).2 =
        (rebuildBody t fs).2.map (fun fs2 => (fs2, cache, true))) := by
  obtain ⟨hv1, hv2⟩ := validBools hv
  cases force with
  | true =>
    right
    refine ⟨rfl, ?_, ?_⟩ <;> simp [smart_task, hv1, hv2]
  | false =>
    left
    have hb : (sources_changed hashFn t.name t.sources fs cache).1 = true := by
      simpa [rebuildDecision] using hdecide
    cases hs : sources_changed hashFn t.name t.sources fs cache with
    | mk b cache' =>
      rw [hs] at hb
      subst hb
      constructor
      · right
        simp [smart_task, hv1, hv2, hs]
      · simp [smart_task, hv1, hv2, hs]

theorem runCmds_error_msg (n : String) :
    ∀ (cs : List Cmd) (fs : FS) (evs : List Event) (e : ExitInfo),
      runCmds n cs fs = (evs, .error e) →
      ∃ txt, e = ⟨cmdFailMsg n txt, 1⟩ := by
  intro cs
  induction cs with
  | nil =>
    intro fs evs e h
    simp [runCmds] at h
  | cons c rest ih =>
    intro fs evs e h
    unfold runCmds at h
    cases hx : c.exec fs with
    | some fs' =>
      rw [hx] at h
      dsimp only at h
      cases hr : runCmds n rest fs' with
      | mk evs' r' =>
        rw [hr] at h
        dsimp only at h
        cases r' with
        | error e' =>
          simp only [Prod.mk.injEq, Except.error.injEq] at h
          obtain ⟨txt, ht⟩ := ih fs' evs' e' hr
          exact ⟨txt, h.2 ▸ ht⟩
        | ok fs'' => simp at h
    | none =>
      rw [hx] at h
      simp only [Prod.mk.injEq, Except.error.injEq] at h
      exact ⟨rewriteCmd c.text, h.2.symm⟩

theorem runBuild_halt (hashFn : String → String) (force : Bool) (t : TaskSpec)
    (post : List TaskSpec) :
    ∀ (pre : List TaskSpec) (fs : FS) (cache : Cache) (traceP : List (String × List Event))
      (fsP : FS) (cacheP : Cache) (evsT : List Event) (e : ExitInfo),
      runBuild hashFn force pre fs cache = (traceP, .ok (fsP, cacheP)) →
      smart_task hashFn t force fsP cacheP = (evsT, .error e) →
      runBuild hashFn force (pre ++ t :: post) fs cache =
        (traceP ++ [(t.name, evsT)], .error e) := by
  intro pre
  induction pre with
  | nil =>
    intro fs cache traceP fsP cacheP evsT e h1 h2
    simp only [runBuild, Prod.mk.injEq, Except.ok.injEq] at h1
    obtain ⟨rfl, rfl, rfl⟩ := h1
    simp only [List.nil_append, runBuild, h2]
  | cons u rest ih =>
    intro fs cache traceP fsP cacheP evsT e h1 h2
    rw [List.cons_append]
    simp only [runBuild] at h1 ⊢
    cases hu : smart_task hashFn u force fs cache with
    | mk evsU rU =>
      rw [hu] at h1
      cases rU with
      | error eU => simp at h1
      | ok st =>
        obtain ⟨fs', cache', b⟩ := st
        dsimp only at h1 ⊢
        cases hres : runBuild hashFn force rest fs' cache' with
        | mk traceR rR =>
          rw [hres] at h1
          dsimp only at h1
          simp only [Prod.mk.injEq] at h1
          obtain ⟨htr, hr⟩ := h1
          have hih := ih fs' cache' traceR fsP cacheP evsT e (by rw [hres, hr]) h2
          rw [hih]
          simp [← htr]

/-! ## Message-shape lemmas -/

theorem strContains_mid4 (a n m c : String) : strContains (a ++ n ++ m ++ c) n = true := by
  rw [String.append_assoc]
  exact strContains_sandwich a n (m ++ c)

theorem strContains_cmdFailMsg_name (n txt : String) :
    strContains (cmdFailMsg n txt) n = true := by
  unfold cmdFailMsg
  exact strContains_mid4 _ n _ _

theorem strContains_cmdFailMsg_cmd (n txt : String) :
    strContains (cmdFailMsg n txt) txt = true := by
  unfold cmdFailMsg
  exact strContains_suffix_self _ txt

theorem strContains_pyScriptFailMsg_name (n d : String) :
    strContains (pyScriptFailMsg n d) n = true := by
  unfold pyScriptFailMsg
  exact strContains_mid4 _ n _ _

theorem strContains_taskFailMsg_name (n m : String) :
    strContains (taskFailMsg n m) n = true := by
  unfold taskFailMsg
  exact strContains_mid4 _ n _ _

theorem strContains_missingTargetsMsg_name (n : String) (m : List String) :
    strContains (missingTargetsMsg n m) n = true := by
  unfold missingTargetsMsg
  exact strContains_mid4 _ n _ _

theorem headD_missingTargetsMsg (n : String) (m : List String) :
    (missingTargetsMsg n m).data.headD ' ' = 'T' := by
  unfold missingTargetsMsg
  exact headD_append_left _ _
    (headD_append_left _ _ (headD_append_left "Task '" _ rfl (by decide)) (by decide))
    (by decide)

theorem headD_cmdFailMsg (n c : String) : (cmdFailMsg n c).data.headD ' ' = 'C' := by
  unfold cmdFailMsg
  exact headD_append_left _ _
    (headD_append_left _ _ (headD_append_left "Command failed in task '" _ rfl (by decide))
      (by decide))
    (by decide)

theorem headD_pyScriptFailMsg (n d : String) : (pyScriptFailMsg n d).data.headD ' ' = 'P' := by
  unfold pyScriptFailMsg
  exact headD_append_left _ _
    (headD_append_left _ _
      (headD_append_left "Python script failed in task '" _ rfl (by decide)) (by decide))
    (by decide)

theorem pyFailExit_code (n : String) (exc : PyExc) : (pyFailExit n exc).code = 1 := by
  unfold pyFailExit
  split
  · split
    · split <;> rfl
    · rfl
  · rfl

theorem pyFailExit_contains_name (n : String) (exc : PyExc) :
    strContains (pyFailExit n exc).message n = true := by
  unfold pyFailExit
  split
  · split
    · split <;> exact strContains_pyScriptFailMsg_name n _
    · exact strContains_pyScriptFailMsg_name n _
  · exact strContains_taskFailMsg_name n _

/-! ## C6 -/

/-- C6: for every rebuilt task whose command completes successfully, the
engine then checks every declared target; if any is missing the run fails
fatally with exit code 1 and a message naming the task and listing exactly the
missing paths, and this failure is distinguishable in kind from a command
failure (Scenario D): the missing-target message can never coincide with the
message of a failing shell command or of a failing script subprocess. -/
theorem c6_missing_target_error (hashFn : String → String) (t : TaskSpec) (force : Bool)
    (fs : FS) (cache : Cache) (evs : List Event) (fs2 : FS)
    (hv : truthyCmds t.commands ≠ truthyPy t.pyf)
    (hdecide : rebuildDecision hashFn t force fs cache = true)
    (hexec : execTask t (remove_outputs fs t.targets).1 = (evs, .ok fs2))
    (hmiss : (t.targets.filter (fun p => (lookupStr fs2 p).isNone)).isEmpty = false) :
    (smart_task hashFn t force fs cache).2 =
      .error ⟨missingTargetsMsg t.name
        (t.targets.filter (fun p => (lookupStr fs2 p).isNone)), 1⟩ ∧
    strContains (missingTargetsMsg t.name
      (t.targets.filter (fun p => (lookupStr fs2 p).isNone))) t.name = true ∧
    (∀ n c, missingTargetsMsg t.name
      (t.targets.filter (fun p => (lookupStr fs2 p).isNone)) ≠ cmdFailMsg n c) ∧
    (∀ n d, missingTargetsMsg t.name
      (t.targets.filter (fun p => (lookupStr fs2 p).isNone)) ≠ pyScriptFailMsg n d) := by
  have hbody := rebuildBody_missing hexec hmiss
  have hbody2 : (rebuildBody t fs).2 =
      .error ⟨missingTargetsMsg t.name
        (t.targets.filter (fun p => (lookupStr fs2 p).isNone)), 1⟩ :=
    congrArg Prod.snd hbody
  refine ⟨?_, strContains_missingTargetsMsg_name _ _, ?_, ?_⟩
  · rcases smart_task_rebuild hashFn t force fs cache hv hdecide with ⟨-, h2⟩ | ⟨-, -, h2⟩ <;>
      rw [h2, hbody2] <;> rfl
  · intro n c
    exact string_ne_of_headD (headD_missingTargetsMsg _ _) (headD_cmdFailMsg n c) (by decide)
  · intro n d
    exact string_ne_of_headD (headD_missingTargetsMsg _ _) (headD_pyScriptFailMsg n d)
      (by decide)

/-- Witness for C6 at a concrete task whose command succeeds without creating
its two declared targets. -/
theorem c6_missing_target_error_witness :
    (smart_task (fun s => s) c6Task false [("s", "c")] []).2 =
      .error ⟨missingTargetsMsg "compile"
        (c6Task.targets.filter (fun p => (lookupStr [("s", "c")] p).isNone)), 1⟩ :=
  (c6_missing_target_error (fun s => s) c6Task false [("s", "c")] []
    [Event.execCmd "lilypond a.ly"] [("s", "c")] (by decide) (by decide) rfl rfl).1

/-! ## C5 -/

/-- C5 counterexample: a deferred callable that raises a generic exception
terminates the run, but the printed message does NOT contain the literal
failing command/arguments: here the callable represents
`python3 extract.py -i x.svg`, yet the exit message is
`Task 'extract' failed: boom`, which names neither the script nor its
arguments. -/
theorem c5_counterexample :
    (smart_task (fun s => s) c5Task false [("s", "c")] []).2 =
      .error ⟨taskFailMsg "extract" "boom", 1⟩ ∧
    strContains (taskFailMsg "extract" "boom")
      (String.intercalate " " c5Py.cmdRepr) = false ∧
    strContains (taskFailMsg "extract" "boom") "extract.py" = false := by
  refine ⟨rfl, by decide, by decide⟩

/-- C5 (amended): a failing task halts the whole run with exit code 1, no
target-existence check and no subsequent task. A failing shell command is
reported with the task name and the literal (possibly `python3 -u`-rewritten)
command text. A failing deferred callable is reported with exit code 1 and
the task name; the literal command/arguments appear only when the exception
message signals a non-zero exit status and carries a command attribute — a
generic exception prints only the exception message. -/
theorem c5_failure_halts_run (hashFn : String → String) (force : Bool) :
    (∀ (pre : List TaskSpec) (t : TaskSpec) (post : List TaskSpec) (fs : FS) (cache : Cache)
      (traceP : List (String × List Event)) (fsP : FS) (cacheP : Cache)
      (evsT : List Event) (e : ExitInfo),
      runBuild hashFn force pre fs cache = (traceP, .ok (fsP, cacheP)) →
      smart_task hashFn t force fsP cacheP = (evsT, .error e) →
      runBuild hashFn force (pre ++ t :: post) fs cache =
        (traceP ++ [(t.name, evsT)], .error e)) ∧
    (∀ (t : TaskSpec) (fs : FS) (cache : Cache) (evsC : List Event) (e : ExitInfo),
      truthyCmds t.commands = true → truthyPy t.pyf = false →
      rebuildDecision hashFn t force fs cache = true →
      runCmds t.name (t.commands.getD []) (remove_outputs fs t.targets).1 =
        (evsC, .error e) →
      (smart_task hashFn t force fs cache).2 = .error e ∧
        e.code = 1 ∧ (∃ txt, e.message = cmdFailMsg t.name txt) ∧
        strContains e.message t.name = true ∧
        (∀ ev ∈ (smart_task hashFn t force fs cache).1, isTargetCheckEv ev = false)) ∧
    (∀ (n : String) (exc : PyExc), (pyFailExit n exc).code = 1 ∧
      strContains (pyFailExit n exc).message n = true) ∧
    (∀ (n txt : String), strContains (cmdFailMsg n txt) n = true ∧
      strContains (cmdFailMsg n txt) txt = true) := by
  refine ⟨?_, ?_, ?_, ?_⟩
  · intro pre t post fs cache traceP fsP cacheP evsT e h1 h2
    exact runBuild_halt hashFn force t post pre fs cache traceP fsP cacheP evsT e h1 h2
  · intro t fs cache evsC e ht hp hdecide hrc
    have hv : truthyCmds t.commands ≠ truthyPy t.pyf := by
      rw [ht, hp]
      decide
    have hexec : execTask t (remove_outputs fs t.targets).1 = (evsC, .error e) := by
      rw [execTask_cmds _ ht]
      exact hrc
    have hbody := rebuildBody_exec_error hexec
    have hbody2 : (rebuildBody t fs).2 = .error e := congrArg Prod.snd hbody
    have hbody1 : (rebuildBody t fs).1 =
        Event.removedTargets (remove_outputs fs t.targets).2 ::
          Event.rebuilding t.name :: evsC := congrArg Prod.fst hbody
    obtain ⟨txt, htxt⟩ := runCmds_error_msg t.name (t.commands.getD [])
      (remove_outputs fs t.targets).1 evsC e hrc
    have hcmdevs : ∀ ev ∈ evsC, ∃ txt', ev = Event.execCmd txt' := by
      intro ev hev
      have : ev ∈ (runCmds t.name (t.commands.getD [])
          (remove_outputs fs t.targets).1).1 := by
        rw [hrc]
        exact hev
      exact runCmds_events t.name _ _ ev this
    refine ⟨?_, ?_, ⟨txt, by rw [htxt]⟩, ?_, ?_⟩
    · rcases smart_task_rebuild hashFn t force fs cache hv hdecide with ⟨-, h2⟩ | ⟨-, -, h2⟩ <;>
        rw [h2, hbody2] <;> rfl
    · rw [htxt]
    · rw [htxt]
      exact strContains_cmdFailMsg_name t.name txt
    · intro ev hev
      have hin : ev = Event.cachePersist t.name (currentHashes hashFn fs t.sources) ∨
          ev ∈ (rebuildBody t fs).1 := by
        rcases smart_task_rebuild hashFn t force fs cache hv hdecide with ⟨h1 | h1, -⟩ |
            ⟨-, h1, -⟩
        · right; rw [← h1]; exact hev
        · rw [h1] at hev
          simp only [List.mem_cons] at hev
          rcases hev with rfl | hev
          · left; rfl
          · right; exact hev
        · right; rw [← h1]; exact hev
      rcases hin with rfl | hin
      · rfl
      · rw [hbody1] at hin
        simp only [List.mem_cons] at hin
        rcases hin with rfl | rfl | hin
        · rfl
        · rfl
        · obtain ⟨txt', rfl⟩ := hcmdevs ev hin
          rfl
  · intro n exc
    exact ⟨pyFailExit_code n exc, pyFailExit_contains_name n exc⟩
  · intro n txt
    exact ⟨strContains_cmdFailMsg_name n txt, strContains_cmdFailMsg_cmd n txt⟩

/-- Witness for C5: the concrete failing command task halts a two-task run
with exit code 1, and the later task never appears in the trace. -/
theorem c5_failure_halts_run_witness :
    runBuild (fun s => s) false [c5CmdTask, c5Next] [("s", "c")] [] =
      ([("build",
        [Event.cachePersist "build" [("s", "c")], Event.removedTargets [],
         Event.rebuilding "build", Event.execCmd "lilypond x.ly"])],
       .error ⟨cmdFailMsg "build" "lilypond x.ly", 1⟩) := by
  have h := (c5_failure_halts_run (fun s => s) false).1 [] c5CmdTask [c5Next]
    [("s", "c")] [] [] [("s", "c")] []
    [Event.cachePersist "build" [("s", "c")], Event.removedTargets [],
     Event.rebuilding "build", Event.execCmd "lilypond x.ly"]
    ⟨cmdFailMsg "build" "lilypond x.ly", 1⟩ rfl rfl
  simpa using h

/-! ## C8 -/

theorem mem_pyDedupGo : ∀ (l seen : List String) (x : String),
    x ∈ pyDedupGo seen l ↔ (x ∈ l ∧ x ∉ seen) := by
  intro l
  induction l with
  | nil =>
    intro seen x
    simp [pyDedupGo]
  | cons a as ih =>
    intro seen x
    rw [pyDedupGo]
    by_cases hc : seen.contains a
    · simp only [hc, if_true, ih seen x, List.mem_cons]
      constructor
      · rintro ⟨hx, hns⟩
        exact ⟨Or.inr hx, hns⟩
      · rintro ⟨rfl | hx, hns⟩
        · exact absurd (List.mem_of_elem_eq_true hc) hns
        · exact ⟨hx, hns⟩
    · have hc' : a ∉ seen := fun hmem => hc (List.elem_eq_true_of_mem hmem)
      simp only [hc, Bool.false_eq_true, if_false, List.mem_cons, ih (seen ++ [a]) x]
      constructor
      · rintro (rfl | ⟨hx, hns⟩)
        · exact ⟨Or.inl rfl, hc'⟩
        · exact ⟨Or.inr hx, fun hmem => hns (List.mem_append_left _ hmem)⟩
      · rintro ⟨rfl | hx, hns⟩
        · exact Or.inl rfl
        · by_cases hxa : x = a
          · exact Or.inl hxa
          · refine Or.inr ⟨hx, ?_⟩
            simp [List.mem_append, hns, hxa]

theorem mem_pyDedup (l : List String) (x : String) : x ∈ pyDedup l ↔ x ∈ l := by
  rw [pyDedup, mem_pyDedupGo]
  simp

theorem c8_sound_aux (nodes : List MNode) (edges : List (String × String)) (x : String) :
    ∀ (eids : List String) (acc : List String),
      x ∈ eids.foldl (fun acc eid =>
        match edges.find? (fun e => e.2 == eid && startsWithChar e.1 'R') with
        | none => acc
        | some re =>
          match edges.find? (fun e => e.2 == re.1 && startsWithChar e.1 'T') with
          | none => acc
          | some te =>
            match get_node_by_id nodes te.1 with
            | some n => acc ++ [n.content]
            | none => acc) acc →
      x ∈ acc ∨ ∃ eid ∈ eids, ∃ re te,
        edges.find? (fun e => e.2 == eid && startsWithChar e.1 'R') = some re ∧
        edges.find? (fun e => e.2 == re.1 && startsWithChar e.1 'T') = some te ∧
        ∃ n, get_node_by_id nodes te.1 = some n ∧ n.content = x := by
  intro eids
  induction eids with
  | nil =>
    intro acc h
    exact Or.inl h
  | cons eid rest ih =>
    intro acc h
    rw [List.foldl_cons] at h
    have step := ih _ h
    have hone : ∀ acc' : List String,
        x ∈ (match edges.find?
            (fun (e : String × String) => e.2 == eid && startsWithChar e.1 'R') with
          | none => acc'
          | some re =>
            match edges.find?
                (fun (e : String × String) => e.2 == re.1 && startsWithChar e.1 'T') with
            | none => acc'
            | some te =>
              match get_node_by_id nodes te.1 with
              | some n => acc' ++ [n.content]
              | none => acc') →
        x ∈ acc' ∨ ∃ re te,
          edges.find? (fun (e : String × String) => e.2 == eid && startsWithChar e.1 'R') =
            some re ∧
          edges.find? (fun (e : String × String) => e.2 == re.1 && startsWithChar e.1 'T') =
            some te ∧
          ∃ n, get_node_by_id nodes te.1 = some n ∧ n.content = x := by
      intro acc' hx
      cases hre : edges.find?
          (fun (e : String × String) => e.2 == eid && startsWithChar e.1 'R') with
      | none => rw [hre] at hx; exact Or.inl hx
      | some re =>
        rw [hre] at hx
        dsimp only at hx
        cases hte : edges.find?
            (fun (e : String × String) => e.2 == re.1 && startsWithChar e.1 'T') with
        | none => rw [hte] at hx; exact Or.inl hx
        | some te =>
          rw [hte] at hx
          dsimp only at hx
          cases hn : get_node_by_id nodes te.1 with
          | none => rw [hn] at hx; exact Or.inl hx
          | some n =>
            rw [hn] at hx
            dsimp only at hx
            rw [List.mem_append, List.mem_singleton] at hx
            rcases hx with hx | rfl
            · exact Or.inl hx
            · exact Or.inr ⟨re, te, rfl, hte, n, hn, rfl⟩
    rcases step with hacc | ⟨eid', hmem, rest'⟩
    · rcases hone acc hacc with h' | h'
      · exact Or.inl h'
      · exact Or.inr ⟨eid, List.mem_cons_self _ _, h'⟩
    · exact Or.inr ⟨eid', List.mem_cons_of_mem _ hmem, rest'⟩

/-- C8 counterexample: with two runnables `R1`,`R2` both feeding export `E1`
and tasks `T1→R1`, `T2→R2`, the task name `t2` satisfies the claim's
Task→Runnable→Export condition yet is absent from the computed final-task
list: for each export only the first producing runnable (in edge-declaration
order) and that runnable's first task contribute. -/
theorem c8_counterexample :
    get_final_tasks_from_listener c8Nodes c8Edges = ["t1"] ∧
    specFinalTasks c8Nodes c8Edges = ["t1", "t2"] ∧
    "t2" ∈ specFinalTasks c8Nodes c8Edges ∧
    "t2" ∉ get_final_tasks_from_listener c8Nodes c8Edges := by
  refine ⟨rfl, rfl, by decide, by decide⟩

/-- C8 (amended): `finalTasks` returns, duplicates removed, a subset of the
content names of the tasks with a Task→Runnable edge to a Runnable that has a
Runnable→Export edge to an Export node — for each Export node only the first
in-edge from a Runnable (declaration order) and that Runnable's first in-edge
from a Task contribute. In Scenario C (T1→R1, R1→E1) the result is exactly
["T1"] and the generated `all` aggregate declares exactly that set as its
dependencies. -/
theorem c8_final_tasks (nodes : List MNode) (edges : List (String × String)) :
    (∀ x ∈ get_final_tasks_from_listener nodes edges,
      ∃ tn rid eid, tn ∈ nodes ∧ startsWithChar tn.id 'T' = true ∧ tn.content = x ∧
        (tn.id, rid) ∈ edges ∧ startsWithChar rid 'R' = true ∧
        (rid, eid) ∈ edges ∧ ∃ en ∈ nodes, en.id = eid ∧ nodeTypeChar en.id = 'E') ∧
    get_final_tasks_from_listener scCNodes scCEdges = ["T1"] ∧
    generate_all_task_pre scCNodes scCEdges = some ["T1"] := by
  refine ⟨?_, rfl, rfl⟩
  intro x hx
  unfold get_final_tasks_from_listener at hx
  rw [mem_pyDedup] at hx
  have h := c8_sound_aux nodes edges x
    ((nodes.filter (fun n => nodeTypeChar n.id == 'E')).map (fun n => n.id)) [] hx
  rcases h with h | ⟨eid, heid, re, te, hre, hte, n, hn, hcx⟩
  · simp at h
  · -- unpack the export node
    rw [List.mem_map] at heid
    obtain ⟨en, hen, rfl⟩ := heid
    rw [List.mem_filter] at hen
    obtain ⟨henn, hent⟩ := hen
    -- unpack the two found edges
    have hreP := List.find?_some hre
    have hreM := List.mem_of_find?_eq_some hre
    have hteP := List.find?_some hte
    have hteM := List.mem_of_find?_eq_some hte
    rw [Bool.and_eq_true, beq_iff_eq] at hreP hteP
    -- unpack the task node
    have hnid : n.id = te.1 := by
      have := List.find?_some hn
      rwa [beq_iff_eq] at this
    have hnM := List.mem_of_find?_eq_some hn
    refine ⟨n, re.1, en.id, hnM, ?_, hcx, ?_, hreP.2, ?_, en, henn, rfl, ?_⟩
    · rw [hnid]
      exact hteP.2
    · rw [hnid, ← hteP.1]
      exact hteM
    · rw [← hreP.1]
      exact hreM
    · rwa [beq_iff_eq] at hent

/-- Witness for C8 (amended): the returned task `t1` indeed carries a full
Task→Runnable→Export chain in the counterexample graph. -/
theorem c8_final_tasks_witness :
    "t1" ∈ get_final_tasks_from_listener c8Nodes c8Edges ∧
    (∃ tn rid eid, tn ∈ c8Nodes ∧ startsWithChar tn.id 'T' = true ∧ tn.content = "t1" ∧
      (tn.id, rid) ∈ c8Edges ∧ startsWithChar rid 'R' = true ∧
      (rid, eid) ∈ c8Edges ∧ ∃ en ∈ c8Nodes, en.id = eid ∧ nodeTypeChar en.id = 'E') :=
  ⟨by decide, (c8_final_tasks c8Nodes c8Edges).1 "t1" (by decide)⟩

/-! ## C3 -/

theorem mem_foldl_accum {α : Type} (Q : String → Prop) (g : List String → α → List String)
    (hg : ∀ acc a d, d ∈ g acc a → d ∈ acc ∨ Q d) :
    ∀ (l : List α) (acc : List String) (d : String), d ∈ l.foldl g acc → d ∈ acc ∨ Q d := by
  intro l
  induction l with
  | nil =>
    intro acc d hd
    exact Or.inl hd
  | cons a as ih =>
    intro acc d hd
    rw [List.foldl_cons] at hd
    rcases ih (g acc a) d hd with h | h
    · exact hg acc a d h
    · exact Or.inr h

theorem trace_content_exists (tid : String) (edges : List (String × String))
    (nodes : List MNode) :
    ∀ d ∈ trace_task_dependencies tid edges nodes, ∃ u ∈ nodes, u.content = d := by
  have hnode : ∀ (acc : List String) (nid : String) (d : String),
      d ∈ (match get_node_by_id nodes nid with
        | some n => acc ++ [n.content]
        | none => acc) → d ∈ acc ∨ ∃ u ∈ nodes, u.content = d := by
    intro acc nid d hd
    cases hn : get_node_by_id nodes nid with
    | none =>
      rw [hn] at hd
      exact Or.inl hd
    | some u =>
      rw [hn] at hd
      rw [List.mem_append, List.mem_singleton] at hd
      rcases hd with hd | rfl
      · exact Or.inl hd
      · exact Or.inr ⟨u, List.mem_of_find?_eq_some hn, rfl⟩
  intro d hd
  unfold trace_task_dependencies at hd
  rw [mem_pyDedup, List.mem_append] at hd
  rcases hd with hd | hd
  · refine (mem_foldl_accum (fun d => ∃ u ∈ nodes, u.content = d) _ ?_ edges [] d hd).resolve_left
      (by simp)
    intro acc e x hx
    split at hx
    · exact hnode acc e.1 x hx
    · exact Or.inl hx
  · refine (mem_foldl_accum (fun d => ∃ u ∈ nodes, u.content = d) _ ?_ edges [] d hd).resolve_left
      (by simp)
    intro acc e x hx
    split at hx
    · rw [List.mem_append] at hx
      rcases hx with hx | hx
      · exact Or.inl hx
      · refine (mem_foldl_accum (fun d => ∃ u ∈ nodes, u.content = d) _ ?_ edges [] x
          hx).resolve_left (by simp) |> Or.inr
        intro acc2 e2 y hy
        split at hy
        · rw [List.mem_append] at hy
          rcases hy with hy | hy
          · exact Or.inl hy
          · refine (mem_foldl_accum (fun d => ∃ u ∈ nodes, u.content = d) _ ?_ edges [] y
              hy).resolve_left (by simp) |> Or.inr
            intro acc3 e3 z hz
            split at hz
            · exact hnode acc3 e3.1 z hz
            · exact Or.inl hz
        · exact Or.inl hy
    · exact Or.inl hx

theorem exists_rank_min (f : MNode → Nat) :
    ∀ (l : List MNode), l ≠ [] → ∃ a ∈ l, ∀ b ∈ l, f a ≤ f b := by
  intro l
  induction l with
  | nil => intro h; exact absurd rfl h
  | cons a as ih =>
    intro _
    by_cases has : as = []
    · subst has
      exact ⟨a, List.mem_cons_self _ _, by simp⟩
    · obtain ⟨m, hm, hmin⟩ := ih has
      rcases le_total (f a) (f m) with hle | hle
      · refine ⟨a, List.mem_cons_self _ _, ?_⟩
        intro b hb
        rcases List.mem_cons.mp hb with rfl | hb
        · exact le_rfl
        · exact le_trans hle (hmin b hb)
      · refine ⟨m, List.mem_cons_of_mem _ hm, ?_⟩
        intro b hb
        rcases List.mem_cons.mp hb with rfl | hb
        · exact hle
        · exact hmin b hb

theorem depsBefore_append (deps : MNode → List String) (l batch : List MNode)
    (hl : DepsBefore deps l)
    (hb : ∀ t ∈ batch, ∀ d ∈ deps t, ∃ u ∈ l, u.content = d) :
    DepsBefore deps (l ++ batch) := by
  intro pre t post heq d hd
  rcases List.append_eq_append_iff.mp heq with ⟨a', ha1, ha2⟩ | ⟨c', hc1, hc2⟩
  · have ht : t ∈ batch := by
      rw [ha2]
      exact List.mem_append_right _ (List.mem_cons_self _ _)
    obtain ⟨u, hu, huc⟩ := hb t ht d hd
    exact ⟨u, by rw [ha1]; exact List.mem_append_left _ hu, huc⟩
  · cases c' with
    | nil =>
      rw [List.append_nil] at hc1
      rw [List.nil_append] at hc2
      have ht : t ∈ batch := by
        rw [← hc2]
        exact List.mem_cons_self _ _
      obtain ⟨u, hu, huc⟩ := hb t ht d hd
      refine ⟨u, ?_, huc⟩
      rw [hc1] at hu
      exact hu
    | cons x c'' =>
      rw [List.cons_append] at hc2
      injection hc2 with hx hrest
      subst hx
      exact hl pre t c'' hc1 d hd

theorem any_content_exists {sorted : List MNode} {d : String}
    (h : sorted.any (fun s => s.content == d) = true) : ∃ u ∈ sorted, u.content = d := by
  rw [List.any_eq_true] at h
  obtain ⟨u, hu, hud⟩ := h
  exact ⟨u, hu, by rwa [beq_iff_eq] at hud⟩

theorem sortGo_perm (edges : List (String × String)) (allTasks : List MNode) :
    ∀ (n : ℕ) (remaining sorted : List MNode), remaining.length ≤ n →
      (sortGo edges allTasks sorted remaining).1.Perm (sorted ++ remaining) := by
  intro n
  induction n with
  | zero =>
    intro remaining sorted hlen
    cases remaining with
    | nil => simp [sortGo]
    | cons r rs => simp at hlen
  | succ n ih =>
    intro remaining sorted hlen
    cases remaining with
    | nil => simp [sortGo]
    | cons r rs =>
      rw [sortGo]
      by_cases hready : ((r :: rs).filter (depsSatisfied edges allTasks sorted)).isEmpty = true
      · rw [dif_pos hready]
        dsimp only
        have hp := ih rs (sorted ++ [r]) (by simpa using hlen)
        refine hp.trans ?_
        rw [List.append_assoc, List.singleton_append]
      · rw [dif_neg hready]
        have hpos : 0 < ((r :: rs).filter (depsSatisfied edges allTasks sorted)).length := by
          cases hne : (r :: rs).filter (depsSatisfied edges allTasks sorted) with
          | nil => rw [hne] at hready; simp at hready
          | cons x xs => simp
        have htot := List.length_eq_length_filter_add (l := r :: rs)
          (depsSatisfied edges allTasks sorted)
        have hlen' :
            ((r :: rs).filter (fun t => !depsSatisfied edges allTasks sorted t)).length ≤ n := by
          simp only [List.length_cons] at hlen htot
          omega
        have hp := ih _ (sorted ++ (r :: rs).filter (depsSatisfied edges allTasks sorted)) hlen'
        refine hp.trans ?_
        rw [List.append_assoc]
        exact List.Perm.append_left sorted (List.filter_append_perm _ _)

theorem sortGo_acyclic (edges : List (String × String)) (allTasks : List MNode)
    (rank : String → Nat)
    (hrank : ∀ t ∈ allTasks, ∀ d ∈ trace_task_dependencies t.id edges allTasks,
      rank d < rank t.content) :
    ∀ (n : ℕ) (remaining sorted : List MNode), remaining.length ≤ n →
      (∀ u ∈ allTasks, u ∈ sorted ∨ u ∈ remaining) →
      (∀ t ∈ remaining, t ∈ allTasks) →
      DepsBefore (fun t => trace_task_dependencies t.id edges allTasks) sorted →
      DepsBefore (fun t => trace_task_dependencies t.id edges allTasks)
        (sortGo edges allTasks sorted remaining).1 ∧
      (sortGo edges allTasks sorted remaining).2 = [] := by
  intro n
  induction n with
  | zero =>
    intro remaining sorted hlen _ _ hdb
    cases remaining with
    | nil => simpa [sortGo] using hdb
    | cons r rs => simp at hlen
  | succ n ih =>
    intro remaining sorted hlen hcover hsub hdb
    cases remaining with
    | nil => simpa [sortGo] using hdb
    | cons r rs =>
      obtain ⟨t, htmem, htmin⟩ := exists_rank_min (fun u => rank u.content) (r :: rs) (by simp)
      have hpt : depsSatisfied edges allTasks sorted t = true := by
        rw [depsSatisfied, List.all_eq_true]
        intro d hd
        have htA : t ∈ allTasks := hsub t htmem
        have hdr : rank d < rank t.content := hrank t htA d hd
        obtain ⟨u, huA, huc⟩ := trace_content_exists t.id edges allTasks d hd
        rcases hcover u huA with hus | hur
        · rw [List.any_eq_true]
          exact ⟨u, hus, by simp [huc]⟩
        · exfalso
          have hle := htmin u hur
          rw [huc] at hle
          omega
      have hready :
          ¬ ((r :: rs).filter (depsSatisfied edges allTasks sorted)).isEmpty = true := by
        intro hempty
        rw [List.isEmpty_iff] at hempty
        have : t ∈ (r :: rs).filter (depsSatisfied edges allTasks sorted) :=
          List.mem_filter.mpr ⟨htmem, hpt⟩
        rw [hempty] at this
        simp at this
      rw [sortGo, dif_neg hready]
      have hpos : 0 < ((r :: rs).filter (depsSatisfied edges allTasks sorted)).length := by
        cases hne : (r :: rs).filter (depsSatisfied edges allTasks sorted) with
        | nil => rw [hne] at hready; simp at hready
        | cons x xs => simp
      have htot := List.length_eq_length_filter_add (l := r :: rs)
        (depsSatisfied edges allTasks sorted)
      apply ih
      · simp only [List.length_cons] at hlen htot
        omega
      · intro u huA
        rcases hcover u huA with hus | hur
        · exact Or.inl (List.mem_append_left _ hus)
        · by_cases hpu : depsSatisfied edges allTasks sorted u = true
          · exact Or.inl (List.mem_append_right _ (List.mem_filter.mpr ⟨hur, hpu⟩))
          · refine Or.inr (List.mem_filter.mpr ⟨hur, ?_⟩)
            simp [hpu]
      · intro t' ht'
        exact hsub t' (List.mem_of_mem_filter ht')
      · refine depsBefore_append _ sorted _ hdb ?_
        intro t' ht' d hd
        have hpt' := (List.mem_filter.mp ht').2
        rw [depsSatisfied, List.all_eq_true] at hpt'
        exact any_content_exists (hpt' d hd)

/-- C3: the topological ordering emits every task exactly once (the output is
a permutation of the input, and the recursion terminates by construction);
whenever a topological rank exists for the dependency relation (the acyclic
case), every task is placed strictly after tasks holding each of its
direct-dependency names, and no circular-dependency warning is logged; and
when no remaining task has all its dependencies already emitted, the first
remaining task in declaration order is force-emitted with a warning. -/
theorem c3_topological_order (tasks : List MNode) (edges : List (String × String)) :
    (sort_tasks_by_dependencies tasks edges).1.Perm tasks ∧
    ((∃ rank : String → Nat, ∀ t ∈ tasks, ∀ d ∈ trace_task_dependencies t.id edges tasks,
        rank d < rank t.content) →
      DepsBefore (fun t => trace_task_dependencies t.id edges tasks)
        (sort_tasks_by_dependencies tasks edges).1 ∧
      (sort_tasks_by_dependencies tasks edges).2 = []) ∧
    (∀ (sorted : List MNode) (r : MNode) (rs : List MNode),
      ((r :: rs).filter (depsSatisfied edges tasks sorted)).isEmpty = true →
      sortGo edges tasks sorted (r :: rs) =
        ((sortGo edges tasks (sorted ++ [r]) rs).1,
          r.content :: (sortGo edges tasks (sorted ++ [r]) rs).2)) := by
  refine ⟨?_, ?_, ?_⟩
  · have := sortGo_perm edges tasks tasks.length tasks [] le_rfl
    simpa [sort_tasks_by_dependencies] using this
  · rintro ⟨rank, hrank⟩
    have := sortGo_acyclic edges tasks rank hrank tasks.length tasks []
      le_rfl (fun u hu => Or.inr hu) (fun t ht => ht) (by intro pre t post heq; simp at heq)
    simpa [sort_tasks_by_dependencies] using this
  · intro sorted r rs h
    rw [sortGo, dif_pos h]

/-- Witness for C3 on the two-task graph `T1 → T2` declared in reverse order:
acyclic via an explicit rank, so no warning is logged and the result is a
permutation placing `a` before `b`. -/
theorem c3_topological_order_witness :
    (sort_tasks_by_dependencies c3Nodes c3Edges).2 = [] ∧
    (sort_tasks_by_dependencies c3Nodes c3Edges).1.Perm c3Nodes := by
  constructor
  · exact ((c3_topological_order c3Nodes c3Edges).2.1
      ⟨fun s => if s = "a" then 0 else 1, by decide⟩).2
  · exact (c3_topological_order c3Nodes c3Edges).1

/-! ## C4: map and file-system lemmas -/

theorem lookupStr_none_iff {α : Type} (m : List (String × α)) (k : String) :
    lookupStr m k = none ↔ ∀ kv ∈ m, kv.1 ≠ k := by
  induction m with
  | nil => simp [lookupStr]
  | cons a rest ih =>
    obtain ⟨ak, av⟩ := a
    rw [lookupStr]
    by_cases hk : ak = k
    · simp [hk]
    · simp only [hk, if_false, ih, List.mem_cons]
      constructor
      · rintro h kv (rfl | hkv)
        · exact hk
        · exact h kv hkv
      · intro h kv hkv
        exact h kv (Or.inr hkv)

theorem lookupStr_map_overwrite_self {α : Type} (m : List (String × α)) (k : String) (v : α)
    (hs : (lookupStr m k).isSome = true) :
    lookupStr (m.map (fun kv => if kv.1 = k then (k, v) else kv)) k = some v := by
  induction m with
  | nil => simp [lookupStr] at hs
  | cons a rest ih =>
    obtain ⟨ak, av⟩ := a
    simp only [List.map_cons]
    by_cases hk : ak = k
    · rw [show (if (ak, av).1 = k then (k, v) else (ak, av)) = (k, v) from if_pos hk]
      rw [lookupStr, if_pos rfl]
    · have hs' : (lookupStr rest k).isSome = true := by
        rw [lookupStr, if_neg hk] at hs
        exact hs
      rw [show (if (ak, av).1 = k then (k, v) else (ak, av)) = (ak, av) from if_neg hk]
      rw [lookupStr, if_neg hk]
      exact ih hs'

theorem lookupStr_map_overwrite_ne {α : Type} (m : List (String × α)) (k k' : String) (v : α)
    (h : k' ≠ k) :
    lookupStr (m.map (fun kv => if kv.1 = k then (k, v) else kv)) k' = lookupStr m k' := by
  induction m with
  | nil => rfl
  | cons a rest ih =>
    obtain ⟨ak, av⟩ := a
    simp only [List.map_cons]
    by_cases hak : ak = k'
    · have hakk : ¬ ak = k := fun hh => h (hak.symm.trans hh)
      rw [show (if (ak, av).1 = k then (k, v) else (ak, av)) = (ak, av) from if_neg hakk]
      rw [lookupStr, lookupStr, if_pos hak, if_pos hak]
    · by_cases hakk : ak = k
      · rw [show (if (ak, av).1 = k then (k, v) else (ak, av)) = (k, v) from if_pos hakk]
        rw [lookupStr, lookupStr, if_neg (fun hh : k = k' => h hh.symm), if_neg hak]
        exact ih
      · rw [show (if (ak, av).1 = k then (k, v) else (ak, av)) = (ak, av) from if_neg hakk]
        rw [lookupStr, lookupStr, if_neg hak, if_neg hak]
        exact ih

theorem lookupStr_append_singleton_self {α : Type} (m : List (String × α)) (k : String) (v : α)
    (hnone : lookupStr m k = none) : lookupStr (m ++ [(k, v)]) k = some v := by
  induction m with
  | nil => simp [lookupStr]
  | cons a rest ih =>
    obtain ⟨ak, av⟩ := a
    by_cases hk : ak = k
    · rw [lookupStr, if_pos hk] at hnone
      exact absurd hnone (by simp)
    · rw [lookupStr, if_neg hk] at hnone
      rw [List.cons_append, lookupStr, if_neg hk]
      exact ih hnone

theorem lookupStr_append_singleton_ne {α : Type} (m : List (String × α)) (k k' : String)
    (v : α) (h : k' ≠ k) : lookupStr (m ++ [(k, v)]) k' = lookupStr m k' := by
  induction m with
  | nil =>
    show (if k = k' then some v else lookupStr [] k') = lookupStr [] k'
    rw [if_neg (fun hh : k = k' => h hh.symm)]
  | cons a rest ih =>
    obtain ⟨ak, av⟩ := a
    rw [List.cons_append, lookupStr, lookupStr]
    by_cases hk' : ak = k'
    · rw [if_pos hk', if_pos hk']
    · rw [if_neg hk', if_neg hk']
      exact ih

theorem lookupStr_insertD_self {α : Type} (m : List (String × α)) (k : String) (v : α) :
    lookupStr (insertD m k v) k = some v := by
  unfold insertD
  split
  · exact lookupStr_map_overwrite_self m k v (by assumption)
  · rename_i hns
    have hnone : lookupStr m k = none := by
      cases ho : lookupStr m k with
      | none => rfl
      | some x => rw [ho] at hns; simp at hns
    exact lookupStr_append_singleton_self m k v hnone

theorem lookupStr_insertD_ne {α : Type} (m : List (String × α)) (k k' : String) (v : α)
    (h : k' ≠ k) : lookupStr (insertD m k v) k' = lookupStr m k' := by
  unfold insertD
  split
  · exact lookupStr_map_overwrite_ne m k k' v h
  · exact lookupStr_append_singleton_ne m k k' v h

/-- Keys of an association list are pairwise distinct. -/
def NodupKeys {α : Type} (m : List (String × α)) : Prop :=
  List.Pairwise (fun a b => a.1 ≠ b.1) m

theorem lookupStr_of_mem {α : Type} {m : List (String × α)} {k : String} {v : α}
    (hnd : NodupKeys m) (hmem : (k, v) ∈ m) : lookupStr m k = some v := by
  induction m with
  | nil => simp at hmem
  | cons a rest ih =>
    obtain ⟨ak, av⟩ := a
    rw [NodupKeys, List.pairwise_cons] at hnd
    rw [lookupStr]
    rcases List.mem_cons.mp hmem with heq | hmem'
    · obtain ⟨rfl, rfl⟩ := Prod.mk.injEq .. ▸ heq
      · simp
    · by_cases hk : ak = k
      · exfalso
        exact hnd.1 (k, v) hmem' (by simpa using hk)
      · rw [if_neg hk]
        exact ih hnd.2 hmem'

theorem insertD_nodupKeys {α : Type} (m : List (String × α)) (k : String) (v : α)
    (hnd : NodupKeys m) : NodupKeys (insertD m k v) := by
  unfold insertD
  split
  · unfold NodupKeys at hnd ⊢
    rw [List.pairwise_map]
    refine hnd.imp ?_
    intro a b hab
    have ha : (if a.1 = k then (k, v) else a).1 = a.1 := by
      by_cases h : a.1 = k <;> simp [h]
    have hb : (if b.1 = k then (k, v) else b).1 = b.1 := by
      by_cases h : b.1 = k <;> simp [h]
    rw [ha, hb]
    exact hab
  · rename_i hns
    have hnone : lookupStr m k = none := by
      cases ho : lookupStr m k with
      | none => rfl
      | some x => rw [ho] at hns; simp at hns
    rw [lookupStr_none_iff] at hnone
    unfold NodupKeys
    rw [List.pairwise_append]
    refine ⟨hnd, by simp, ?_⟩
    intro a ha b hb
    rw [List.mem_singleton] at hb
    subst hb
    exact hnone a ha

theorem dictEq_refl_of_nodupKeys (m : HashMapD) (hnd : NodupKeys m) : dictEq m m = true := by
  unfold dictEq
  simp only [Bool.and_eq_true, List.all_eq_true]
  constructor <;>
  · intro kv hkv
    rw [beq_iff_eq]
    exact lookupStr_of_mem hnd hkv

theorem currentHashes_nodupKeys (hashFn : String → String) (fs : FS) (sources : List String) :
    NodupKeys (currentHashes hashFn fs sources) := by
  have key : ∀ (src : List String) (acc : HashMapD), NodupKeys acc →
      NodupKeys (src.foldl (fun m p =>
        match lookupStr fs p with
        | some content => insertD m p (hashFn content)
        | none => m) acc) := by
    intro src
    induction src with
    | nil => intro acc h; exact h
    | cons p ps ih =>
      intro acc h
      rw [List.foldl_cons]
      apply ih
      cases hl : lookupStr fs p with
      | none => simpa [hl] using h
      | some c =>
        simp only [hl]
        exact insertD_nodupKeys _ _ _ h
  exact key sources [] List.Pairwise.nil

theorem currentHashes_congr (hashFn : String → String) (fs fs' : FS) (sources : List String)
    (h : ∀ p ∈ sources, lookupStr fs' p = lookupStr fs p) :
    currentHashes hashFn fs' sources = currentHashes hashFn fs sources := by
  have key : ∀ (src : List String) (acc : HashMapD),
      (∀ p ∈ src, lookupStr fs' p = lookupStr fs p) →
      src.foldl (fun m p =>
        match lookupStr fs' p with
        | some content => insertD m p (hashFn content)
        | none => m) acc =
      src.foldl (fun m p =>
        match lookupStr fs p with
        | some content => insertD m p (hashFn content)
        | none => m) acc := by
    intro src
    induction src with
    | nil => intro acc _; rfl
    | cons p ps ih =>
      intro acc hsrc
      rw [List.foldl_cons, List.foldl_cons]
      rw [hsrc p (List.mem_cons_self _ _)]
      exact ih _ (fun q hq => hsrc q (List.mem_cons_of_mem _ hq))
  exact key sources [] h

theorem lookupStr_fsDelete_ne (fs : FS) (q p : String) (h : p ≠ q) :
    lookupStr (fsDelete fs q) p = lookupStr fs p := by
  unfold fsDelete
  induction fs with
  | nil => rfl
  | cons a rest ih =>
    obtain ⟨ak, av⟩ := a
    rw [List.filter_cons]
    by_cases haq : ak = q
    · rw [show (decide ((ak, av).1 ≠ q)) = false from by simp [haq]]
      simp only [Bool.false_eq_true, if_false]
      rw [ih, lookupStr, if_neg (show ¬ ak = p from fun hh => h (hh.symm.trans haq))]
    · rw [show (decide ((ak, av).1 ≠ q)) = true from by simp [haq]]
      simp only [if_true]
      rw [lookupStr, lookupStr]
      by_cases hap : ak = p
      · rw [if_pos hap, if_pos hap]
      · rw [if_neg hap, if_neg hap]
        exact ih

theorem remove_outputs_fold_preserves :
    ∀ (targets : List String) (st : FS × List String) (p : String), p ∉ targets →
      lookupStr (targets.foldl (fun (st : FS × List String) t =>
        if (lookupStr st.1 t).isSome then (fsDelete st.1 t, st.2 ++ [t]) else st) st).1 p =
      lookupStr st.1 p := by
  intro targets
  induction targets with
  | nil => intro st p _; rfl
  | cons t ts ih =>
    intro st p hp
    rw [List.foldl_cons]
    have hpt : p ≠ t := fun hh => hp (hh ▸ List.mem_cons_self _ _)
    have hpts : p ∉ ts := fun hh => hp (List.mem_cons_of_mem _ hh)
    rw [ih _ p hpts]
    split
    · exact lookupStr_fsDelete_ne st.1 t p hpt
    · rfl

theorem remove_outputs_preserves (fs : FS) (targets : List String) (p : String)
    (hp : p ∉ targets) : lookupStr (remove_outputs fs targets).1 p = lookupStr fs p := by
  unfold remove_outputs
  exact remove_outputs_fold_preserves targets (fs, []) p hp

theorem runCmds_preserves (n : String) (targets : List String) :
    ∀ (cs : List Cmd),
      (∀ c ∈ cs, ∀ fs fs', c.exec fs = some fs' →
        ∀ p, p ∉ targets → lookupStr fs' p = lookupStr fs p) →
      ∀ (fs : FS) (evs : List Event) (fs2 : FS), runCmds n cs fs = (evs, .ok fs2) →
      ∀ p, p ∉ targets → lookupStr fs2 p = lookupStr fs p := by
  intro cs
  induction cs with
  | nil =>
    intro _ fs evs fs2 h p hp
    simp only [runCmds, Prod.mk.injEq, Except.ok.injEq] at h
    rw [← h.2]
  | cons c rest ih =>
    intro hW fs evs fs2 h p hp
    unfold runCmds at h
    cases hx : c.exec fs with
    | none =>
      rw [hx] at h
      simp at h
    | some fs' =>
      rw [hx] at h
      dsimp only at h
      cases hr : runCmds n rest fs' with
      | mk evs' r' =>
        rw [hr] at h
        dsimp only at h
        cases r' with
        | error e => simp at h
        | ok fs2' =>
          simp only [Prod.mk.injEq, Except.ok.injEq] at h
          have h2 := ih (fun c' hc' => hW c' (List.mem_cons_of_mem _ hc')) fs' evs' fs2' hr p hp
          rw [← h.2, h2]
          exact hW c (List.mem_cons_self _ _) fs fs' hx p hp

theorem execTask_preserves (t : TaskSpec) (hW : WritesOnlyTargets t) (fs : FS)
    (evs : List Event) (fs2 : FS) (h : execTask t fs = (evs, .ok fs2)) :
    ∀ p, p ∉ t.targets → lookupStr fs2 p = lookupStr fs p := by
  intro p hp
  unfold execTask at h
  split at h
  · rename_i htr
    cases hcmd : t.commands with
    | none =>
      rw [hcmd] at htr
      simp [truthyCmds] at htr
    | some cs =>
      rw [hcmd] at h
      exact runCmds_preserves t.name t.targets cs (fun c hc => hW.1 cs hcmd c hc) fs evs fs2 h
        p hp
  · split at h
    · rename_i f hf
      unfold runPy at h
      cases hx : f.exec fs with
      | ok fs' =>
        rw [hx] at h
        simp only [Prod.mk.injEq, Except.ok.injEq] at h
        rw [← h.2]
        exact hW.2 f hf fs fs' hx p hp
      | error e =>
        rw [hx] at h
        simp at h
    · simp only [Prod.mk.injEq, Except.ok.injEq] at h
      rw [← h.2]

theorem rebuildBody_ok_preserves (t : TaskSpec) (hW : WritesOnlyTargets t) (fs fs2 : FS)
    (h : (rebuildBody t fs).2 = .ok fs2) :
    ∀ p, p ∉ t.targets → lookupStr fs2 p = lookupStr fs p := by
  intro p hp
  simp only [rebuildBody] at h
  cases hx : execTask t (remove_outputs fs t.targets).1 with
  | mk evs r =>
    rw [hx] at h
    cases r with
    | error e => simp at h
    | ok fs2' =>
      dsimp only at h
      split at h
      · simp only [Except.ok.injEq] at h
        rw [← h]
        rw [execTask_preserves t hW _ evs fs2' hx p hp]
        exact remove_outputs_preserves fs t.targets p hp
      · simp at h

theorem smart_task_valid_of_ok (hashFn : String → String) (t : TaskSpec) (force : Bool)
    (fs : FS) (cache : Cache) (evs : List Event) (st : FS × Cache × Bool)
    (h : smart_task hashFn t force fs cache = (evs, .ok st)) :
    truthyCmds t.commands ≠ truthyPy t.pyf := by
  intro hv
  cases hc : truthyCmds t.commands with
  | true =>
    have hp : truthyPy t.pyf = true := by rw [← hv, hc]
    simp [smart_task, hc, hp] at h
  | false =>
    have hp : truthyPy t.pyf = false := by rw [← hv, hc]
    simp [smart_task, hc, hp] at h

theorem smart_task_upToDate (hashFn : String → String) (t : TaskSpec) (fs : FS) (cache : Cache)
    (hv : truthyCmds t.commands ≠ truthyPy t.pyf)
    (hdict : dictEq (currentHashes hashFn fs t.sources)
      ((lookupStr cache t.name).getD []) = true) :
    smart_task hashFn t false fs cache = ([Event.upToDate t.name], .ok (fs, cache, false)) := by
  obtain ⟨hv1, hv2⟩ := validBools hv
  simp [smart_task, hv1, hv2, sources_changed, hdict]

theorem smart_task_ok_cases (hashFn : String → String) (t : TaskSpec) (fs : FS) (cache : Cache)
    (evs : List Event) (fs' : FS) (cache' : Cache) (b : Bool)
    (h : smart_task hashFn t false fs cache = (evs, .ok (fs', cache', b))) :
    (b = false ∧ fs' = fs ∧ cache' = cache ∧
      dictEq (currentHashes hashFn fs t.sources) ((lookupStr cache t.name).getD []) = true) ∨
    (b = true ∧ cache' = insertD cache t.name (currentHashes hashFn fs t.sources) ∧
      (rebuildBody t fs).2 = .ok fs') := by
  have hv := smart_task_valid_of_ok hashFn t false fs cache evs _ h
  obtain ⟨hv1, hv2⟩ := validBools hv
  simp only [smart_task, hv1, hv2, Bool.false_eq_true, if_false] at h
  cases hd : dictEq (currentHashes hashFn fs t.sources) ((lookupStr cache t.name).getD []) with
  | true =>
    have hsc : sources_changed hashFn t.name t.sources fs cache = (false, cache) := by
      simp [sources_changed, hd]
    rw [hsc] at h
    dsimp only at h
    simp only [Prod.mk.injEq, Except.ok.injEq] at h
    exact Or.inl ⟨h.2.2.2.symm, h.2.1.symm, h.2.2.1.symm, rfl⟩
  | false =>
    have hsc : sources_changed hashFn t.name t.sources fs cache =
        (true, insertD cache t.name (currentHashes hashFn fs t.sources)) := by
      simp [sources_changed, hd]
    rw [hsc] at h
    dsimp only at h
    cases hb : (rebuildBody t fs).2 with
    | error e =>
      rw [hb] at h
      simp [Except.map] at h
    | ok fs2 =>
      rw [hb] at h
      simp only [Except.map, Prod.mk.injEq, Except.ok.injEq] at h
      refine Or.inr ⟨h.2.2.2.symm, h.2.2.1.symm, ?_⟩
      rw [h.2.1]

theorem smart_task_preserves_state (hashFn : String → String) (t : TaskSpec) (fs : FS)
    (cache : Cache) (evs : List Event) (fs' : FS) (cache' : Cache) (b : Bool)
    (hW : WritesOnlyTargets t)
    (h : smart_task hashFn t false fs cache = (evs, .ok (fs', cache', b))) :
    (∀ p, p ∉ t.targets → lookupStr fs' p = lookupStr fs p) ∧
    (∀ nm, nm ≠ t.name → lookupStr cache' nm = lookupStr cache nm) := by
  rcases smart_task_ok_cases hashFn t fs cache evs fs' cache' b h with
    ⟨-, rfl, rfl, -⟩ | ⟨-, rfl, hbody⟩
  · exact ⟨fun p _ => rfl, fun nm _ => rfl⟩
  · exact ⟨rebuildBody_ok_preserves t hW fs fs' hbody,
      fun nm hnm => lookupStr_insertD_ne cache t.name nm _ hnm⟩

theorem runBuild_ok_cons (hashFn : String → String) (t : TaskSpec) (rest : List TaskSpec)
    (fs : FS) (cache : Cache) (trace : List (String × List Event)) (fs1 : FS) (cache1 : Cache)
    (h : runBuild hashFn false (t :: rest) fs cache = (trace, .ok (fs1, cache1))) :
    ∃ evs fs' cache' b trace',
      smart_task hashFn t false fs cache = (evs, .ok (fs', cache', b)) ∧
      runBuild hashFn false rest fs' cache' = (trace', .ok (fs1, cache1)) ∧
      trace = (t.name, evs) :: trace' := by
  simp only [runBuild] at h
  cases hu : smart_task hashFn t false fs cache with
  | mk evs r =>
    rw [hu] at h
    cases r with
    | error e => simp at h
    | ok st =>
      obtain ⟨fs', cache', b⟩ := st
      dsimp only at h
      cases hres : runBuild hashFn false rest fs' cache' with
      | mk trace' r' =>
        rw [hres] at h
        dsimp only at h
        simp only [Prod.mk.injEq] at h
        exact ⟨evs, fs', cache', b, trace', rfl, by rw [hres, h.2], h.1.symm⟩

theorem runBuild_preserves (hashFn : String → String) :
    ∀ (tasks : List TaskSpec) (fs : FS) (cache : Cache)
      (trace : List (String × List Event)) (fs1 : FS) (cache1 : Cache),
      runBuild hashFn false tasks fs cache = (trace, .ok (fs1, cache1)) →
      (∀ t ∈ tasks, WritesOnlyTargets t) →
      (∀ p, (∀ t ∈ tasks, p ∉ t.targets) → lookupStr fs1 p = lookupStr fs p) ∧
      (∀ nm, (∀ t ∈ tasks, nm ≠ t.name) → lookupStr cache1 nm = lookupStr cache nm) := by
  intro tasks
  induction tasks with
  | nil =>
    intro fs cache trace fs1 cache1 h _
    simp only [runBuild, Prod.mk.injEq, Except.ok.injEq] at h
    obtain ⟨-, rfl, rfl⟩ := h
    exact ⟨fun _ _ => rfl, fun _ _ => rfl⟩
  | cons t rest ih =>
    intro fs cache trace fs1 cache1 h hW
    obtain ⟨evs, fs', cache', b, trace', hstep, hrest, -⟩ :=
      runBuild_ok_cons hashFn t rest fs cache trace fs1 cache1 h
    have hsp := smart_task_preserves_state hashFn t fs cache evs fs' cache' b
      (hW t (List.mem_cons_self _ _)) hstep
    have hih := ih fs' cache' trace' fs1 cache1 hrest
      (fun v hv => hW v (List.mem_cons_of_mem _ hv))
    constructor
    · intro p hp
      rw [hih.1 p (fun v hv => hp v (List.mem_cons_of_mem _ hv)),
        hsp.1 p (hp t (List.mem_cons_self _ _))]
    · intro nm hnm
      rw [hih.2 nm (fun v hv => hnm v (List.mem_cons_of_mem _ hv)),
        hsp.2 nm (hnm t (List.mem_cons_self _ _))]

theorem runBuild_ok_valid (hashFn : String → String) :
    ∀ (tasks : List TaskSpec) (fs : FS) (cache : Cache)
      (trace : List (String × List Event)) (fs1 : FS) (cache1 : Cache),
      runBuild hashFn false tasks fs cache = (trace, .ok (fs1, cache1)) →
      ∀ t ∈ tasks, truthyCmds t.commands ≠ truthyPy t.pyf := by
  intro tasks
  induction tasks with
  | nil =>
    intro _ _ _ _ _ _ t ht
    simp at ht
  | cons t rest ih =>
    intro fs cache trace fs1 cache1 h u hu
    obtain ⟨evs, fs', cache', b, trace', hstep, hrest, -⟩ :=
      runBuild_ok_cons hashFn t rest fs cache trace fs1 cache1 h
    rcases List.mem_cons.mp hu with rfl | hu'
    · exact smart_task_valid_of_ok hashFn u false fs cache evs _ hstep
    · exact ih fs' cache' trace' fs1 cache1 hrest u hu'

theorem run1_invariant (hashFn : String → String) :
    ∀ (tasks : List TaskSpec) (fs : FS) (cache : Cache)
      (trace : List (String × List Event)) (fs1 : FS) (cache1 : Cache),
      runBuild hashFn false tasks fs cache = (trace, .ok (fs1, cache1)) →
      List.Pairwise (fun t u => ∀ p ∈ u.targets, p ∉ t.sources) tasks →
      (∀ t ∈ tasks, ∀ p ∈ t.targets, p ∉ t.sources) →
      ((tasks.map (fun t => t.name)).Nodup) →
      (∀ t ∈ tasks, WritesOnlyTargets t) →
      ∀ t ∈ tasks, dictEq (currentHashes hashFn fs1 t.sources)
        ((lookupStr cache1 t.name).getD []) = true := by
  intro tasks
  induction tasks with
  | nil =>
    intro _ _ _ _ _ _ _ _ _ _ t ht
    simp at ht
  | cons t rest ih =>
    intro fs cache trace fs1 cache1 hrun hpair hself hnames hW u hu
    obtain ⟨evs, fs', cache', b, trace', hstep, hrest, -⟩ :=
      runBuild_ok_cons hashFn t rest fs cache trace fs1 cache1 hrun
    rw [List.pairwise_cons] at hpair
    rw [List.map_cons, List.nodup_cons] at hnames
    rcases List.mem_cons.mp hu with rfl | hu'
    · have hstep_inv : dictEq (currentHashes hashFn fs' u.sources)
          ((lookupStr cache' u.name).getD []) = true := by
        rcases smart_task_ok_cases hashFn u fs cache evs fs' cache' b hstep with
          ⟨-, rfl, rfl, hdict⟩ | ⟨-, rfl, hbody⟩
        · exact hdict
        · have hsrc_pres : ∀ p ∈ u.sources, lookupStr fs' p = lookupStr fs p := by
            intro p hp
            exact rebuildBody_ok_preserves u (hW u (List.mem_cons_self _ _)) fs fs' hbody p
              (fun hpt => hself u (List.mem_cons_self _ _) p hpt hp)
          rw [currentHashes_congr hashFn fs fs' u.sources hsrc_pres, lookupStr_insertD_self]
          exact dictEq_refl_of_nodupKeys _ (currentHashes_nodupKeys hashFn fs u.sources)
      have hpres := runBuild_preserves hashFn rest fs' cache' trace' fs1 cache1 hrest
        (fun v hv => hW v (List.mem_cons_of_mem _ hv))
      have hfs : currentHashes hashFn fs1 u.sources = currentHashes hashFn fs' u.sources := by
        apply currentHashes_congr
        intro p hp
        exact hpres.1 p (fun v hv => fun hpt => hpair.1 v hv p hpt hp)
      have hcache : lookupStr cache1 u.name = lookupStr cache' u.name := by
        apply hpres.2
        intro v hv heq
        exact hnames.1 (List.mem_map.mpr ⟨v, hv, heq.symm⟩)
      rw [hfs, hcache]
      exact hstep_inv
    · exact ih fs' cache' trace' fs1 cache1 hrest hpair.2
        (fun v hv => hself v (List.mem_cons_of_mem _ hv)) hnames.2
        (fun v hv => hW v (List.mem_cons_of_mem _ hv)) u hu'

theorem run2_upToDate (hashFn : String → String) :
    ∀ (tasks : List TaskSpec) (fs : FS) (cache : Cache),
      (∀ t ∈ tasks, dictEq (currentHashes hashFn fs t.sources)
        ((lookupStr cache t.name).getD []) = true) →
      (∀ t ∈ tasks, truthyCmds t.commands ≠ truthyPy t.pyf) →
      runBuild hashFn false tasks fs cache =
        (tasks.map (fun t => (t.name, [Event.upToDate t.name])), .ok (fs, cache)) := by
  intro tasks
  induction tasks with
  | nil => intro fs cache _ _; rfl
  | cons t rest ih =>
    intro fs cache hdict hv
    have hst := smart_task_upToDate hashFn t fs cache (hv t (List.mem_cons_self _ _))
      (hdict t (List.mem_cons_self _ _))
    simp only [runBuild, hst]
    rw [ih fs cache (fun v hv' => hdict v (List.mem_cons_of_mem _ hv'))
      (fun v hv' => hv v (List.mem_cons_of_mem _ hv'))]
    rfl

/-- C4: running the build twice over the same task list with no source-file
changes between the runs performs zero rebuilds on the second run — for every
task, the hashes computed on the second run match the cache state left by the
first run, so every task reports "up to date" and the file system and cache
are unchanged. Hypotheses make the claim's implicit well-formedness explicit:
each task's commands write only its declared targets, no task's targets feed
the sources of itself or an earlier task, and task names are distinct. -/
theorem c4_second_run_no_rebuilds (hashFn : String → String) (tasks : List TaskSpec)
    (fs0 : FS) (cache0 : Cache) (trace1 : List (String × List Event))
    (fs1 : FS) (cache1 : Cache)
    (hrun1 : runBuild hashFn false tasks fs0 cache0 = (trace1, .ok (fs1, cache1)))
    (hpair : List.Pairwise (fun t u => ∀ p ∈ u.targets, p ∉ t.sources) tasks)
    (hself : ∀ t ∈ tasks, ∀ p ∈ t.targets, p ∉ t.sources)
    (hnames : (tasks.map (fun t => t.name)).Nodup)
    (hbehaved : ∀ t ∈ tasks, WritesOnlyTargets t) :
    runBuild hashFn false tasks fs1 cache1 =
      (tasks.map (fun t => (t.name, [Event.upToDate t.name])), .ok (fs1, cache1)) ∧
    ∀ t ∈ tasks, didRebuild [Event.upToDate t.name] = false := by
  have hdict := run1_invariant hashFn tasks fs0 cache0 trace1 fs1 cache1 hrun1 hpair hself
    hnames hbehaved
  have hv := runBuild_ok_valid hashFn tasks fs0 cache0 trace1 fs1 cache1 hrun1
  exact ⟨run2_upToDate hashFn tasks fs1 cache1 hdict hv, fun t _ => rfl⟩

/-- Witness for C4: the concrete two-task pipeline `A` (a.src → a.out) then
`B` (a.out → b.out) is fully up to date on its second run. -/
theorem c4_second_run_no_rebuilds_witness :
    runBuild (fun s => s) false [c4TaskA, c4TaskB]
      [("a.src", "src-content"), ("a.out", "A-out"), ("b.out", "B-out")]
      [("A", [("a.src", "src-content")]), ("B", [("a.out", "A-out")])] =
      ([("A", [Event.upToDate "A"]), ("B", [Event.upToDate "B"])],
        .ok ([("a.src", "src-content"), ("a.out", "A-out"), ("b.out", "B-out")],
          [("A", [("a.src", "src-content")]), ("B", [("a.out", "A-out")])])) := by
  have honecmd : ∀ (tgt val : String) (fs fs' : FS), some (fsSet fs tgt val) = some fs' →
      ∀ p, p ≠ tgt → lookupStr fs' p = lookupStr fs p := by
    intro tgt val fs fs' h p hp
    injection h with h
    rw [← h]
    exact lookupStr_insertD_ne fs tgt p val hp
  have hbehaved : ∀ t ∈ [c4TaskA, c4TaskB], WritesOnlyTargets t := by
    intro t ht
    rcases List.mem_cons.mp ht with rfl | ht2
    · constructor
      · intro cs hcs c hc fs fs' hexec p hp
        have hcs' : cs = [⟨"gen a.out", fun fs => some (fsSet fs "a.out" "A-out")⟩] := by
          injection hcs with h
          exact h.symm
        subst hcs'
        rw [List.mem_singleton] at hc
        subst hc
        exact honecmd "a.out" "A-out" fs fs' hexec p (by simpa [c4TaskA] using hp)
      · intro f hf
        simp [c4TaskA] at hf
    · rcases List.mem_cons.mp ht2 with rfl | ht3
      · constructor
        · intro cs hcs c hc fs fs' hexec p hp
          have hcs' : cs = [⟨"gen b.out", fun fs => some (fsSet fs "b.out" "B-out")⟩] := by
            injection hcs with h
            exact h.symm
          subst hcs'
          rw [List.mem_singleton] at hc
          subst hc
          exact honecmd "b.out" "B-out" fs fs' hexec p (by simpa [c4TaskB] using hp)
        · intro f hf
          simp [c4TaskB] at hf
      · simp at ht3
  have h := (c4_second_run_no_rebuilds (fun s => s) [c4TaskA, c4TaskB] c4Fs []
    [("A",
      [Event.cachePersist "A" [("a.src", "src-content")], Event.removedTargets [],
       Event.rebuilding "A", Event.execCmd "gen a.out", Event.targetCheck "A" []]),
     ("B",
      [Event.cachePersist "B" [("a.out", "A-out")], Event.removedTargets [],
       Event.rebuilding "B", Event.execCmd "gen b.out", Event.targetCheck "B" []])]
    [("a.src", "src-content"), ("a.out", "A-out"), ("b.out", "B-out")]
    [("A", [("a.src", "src-content")]), ("B", [("a.out", "A-out")])]
    rfl (by decide) (by decide) (by decide) hbehaved).1
  simpa using h

end BWV
